import Mathlib

set_option linter.unusedSectionVars false
set_option linter.unnecessarySeqFocus false
set_option linter.unreachableTactic false
set_option linter.unusedTactic false
set_option maxHeartbeats 1000000
set_option maxRecDepth 100000

/-!
# Verification of the eventron discrete-event engine

A shallow embedding of the generalized N-station discrete-event simulation
engine (`src/unnamed/part_002`, class `DiscreteEventEngine`) together with
proofs and refutations of the specification's claims about it.

Modelling conventions:
* Virtual time and coordinates are rationals (`ℚ`).  The only floating-point
  operation in the engine is `Math.sqrt` inside `calculateTravelTime`; the
  Euclidean distance is abstracted as a parameter `dist : Point → Point → ℚ`
  of the model, and `calculateTravelTime` applies the source's
  `Math.max((distance / baseTravelerSpeed) * 20, 100)` on top of it.
* `stage` and `currentLocation` are `String`s, exactly as in the source,
  which builds them with template literals and tests them with
  `startsWith` — the string-based branching is semantically relevant.
* The TypeScript string-literal union of event types is an inductive type.
* JavaScript `Map`s (travelers, processing stations) are association lists
  in insertion order: `Map.get` is "first entry with the key", `Map.set`
  replaces in place or appends, `Map.delete` removes, and iteration is list
  order — matching JS `Map` semantics.
* JavaScript truthiness tests on strings (`stationId || targetStation` in
  the handlers, `traveler.targetStation` in the renderer's guards) are
  modelled explicitly: `undefined` and the empty string are falsy.
* `console.log` calls and the observer (`eventHandlers`) notifications are
  omitted: they do not touch engine state.
* The `setInterval` driver is not modelled; `step()` is modelled directly.
-/

namespace Eventron

/-- A 2-D point, as used for locations and stations. -/
structure Point where
  x : ℚ
  y : ℚ
deriving DecidableEq, Repr

/-- TypeScript union `'available' | 'claimed' | 'active'`. -/
inductive StationState where
  | available
  | claimed
  | active
deriving DecidableEq, Repr

/-- The union type `SimulationEvent['type']` of `src/unnamed/part_002`. -/
inductive EventType where
  | travelerStartJourney
  | travelerArriveAtC
  | travelerCollectBox
  | travelerArriveAtStation
  | travelerFinishProcessing
  | travelerArriveAtA
  | simulationComplete
deriving DecidableEq, Repr

/-- The `data?: any` payload: the engine only ever reads `data?.stationId`
and `data?.postProcessing` from it. -/
structure EventData where
  stationId : Option String := none
  postProcessing : Bool := false
deriving DecidableEq, Repr

/-- `SimulationEvent` of `src/unnamed/part_002`. -/
structure SimulationEvent where
  id : String
  time : ℚ
  type : EventType
  entityId : ℕ
  data : Option EventData := none
deriving DecidableEq, Repr

/-- `TravelerState` of `src/unnamed/part_002`. -/
structure TravelerState where
  id : ℕ
  currentLocation : String
  stage : String
  journeyStartTime : ℚ
  currentSegmentStartTime : ℚ
  x : ℚ
  y : ℚ
  isActive : Bool
  targetStation : Option String := none
  hasBox : Bool := false
  boxesProcessed : ℕ := 0
deriving DecidableEq, Repr

/-- `ProcessingStation` of `src/unnamed/part_002`. -/
structure ProcessingStation where
  id : String
  x : ℚ
  y : ℚ
  state : StationState
  currentProcessingTraveler : Option ℕ
  claimedByTraveler : Option ℕ
  waiting : List ℕ
deriving DecidableEq, Repr

section AssocMap

variable {α : Type} {κ : Type} [BEq κ]

/-- JS `Map.get`: first entry whose key matches. -/
def getBy (key : α → κ) (l : List α) (k : κ) : Option α :=
  l.find? (fun a => key a == k)

/-- JS `Map.set` (here: in-place mutation of a looked-up entry, or insertion
of a new entry): replace the entries with the same key, else append. -/
def setBy (key : α → κ) (l : List α) (a : α) : List α :=
  if l.any (fun b => key b == key a) then
    l.map (fun b => if key b == key a then a else b)
  else l ++ [a]

/-- JS `Map.delete`: remove the entries with the given key. -/
def delBy (key : α → κ) (l : List α) (k : κ) : List α :=
  l.filter (fun a => !(key a == k))

end AssocMap

/-- The private mutable fields of class `DiscreteEventEngine`
(`src/unnamed/part_002`), other than `intervalId` and `eventHandlers`. -/
structure EngineState where
  eventQueue : List SimulationEvent
  currentTime : ℚ
  isRunning : Bool
  nextEventId : ℕ
  travelers : List TravelerState
  locationA : Point
  locationC : Point
  processingStations : List ProcessingStation
  simulationSpeed : ℚ
  baseTravelerSpeed : ℚ
  processingDuration : ℚ
  collectionDuration : ℚ
  availableBoxes : ℤ
  totalBoxesProcessed : ℤ
  maxBoxes : ℤ
  hasBeenInitialized : Bool
deriving DecidableEq, Repr

/-- Field initializers of `DiscreteEventEngine` (the constructor is empty). -/
def initialState : EngineState where
  eventQueue := []
  currentTime := 0
  isRunning := false
  nextEventId := 1
  travelers := []
  locationA := ⟨55, 105⟩
  locationC := ⟨100, 200⟩
  processingStations := []
  simulationSpeed := 1
  baseTravelerSpeed := 2
  processingDuration := 2000
  collectionDuration := 1000
  availableBoxes := 5
  totalBoxesProcessed := 0
  maxBoxes := 5
  hasBeenInitialized := false

/-- `travelers.get(id)`. -/
def travGet (s : EngineState) (id : ℕ) : Option TravelerState :=
  getBy TravelerState.id s.travelers id

/-- `stations.get(id)`. -/
def stGet (stations : List ProcessingStation) (id : String) : Option ProcessingStation :=
  getBy ProcessingStation.id stations id

/-- `addProcessingStation(id, x, y)`. -/
def addProcessingStation (s : EngineState) (id : String) (x y : ℚ) : EngineState :=
  let station : ProcessingStation :=
    { id := id, x := x, y := y, state := .available,
      currentProcessingTraveler := none, claimedByTraveler := none, waiting := [] }
  { s with processingStations := setBy ProcessingStation.id s.processingStations station }

/-- `removeProcessingStation(id)`. -/
def removeProcessingStation (s : EngineState) (id : String) : EngineState :=
  { s with processingStations := delBy ProcessingStation.id s.processingStations id }

/-- `updateProcessingStationLocation(id, x, y)`. -/
def updateProcessingStationLocation (s : EngineState) (id : String) (x y : ℚ) : EngineState :=
  match stGet s.processingStations id with
  | none => s
  | some station =>
      { s with
          processingStations :=
          setBy ProcessingStation.id s.processingStations { station with x := x, y := y } }

/-- The event literal built by `scheduleEvent(delay, type, entityId, data)`:
`id` is `event-${nextEventId}` and `time` is `currentTime + delay`. -/
def mkEvent (s : EngineState) (delay : ℚ) (type : EventType) (entityId : ℕ)
    (data : Option EventData) : SimulationEvent :=
  { id := "event-" ++ toString s.nextEventId
    time := s.currentTime + delay
    type := type
    entityId := entityId
    data := data }

/-- The insertion step of `scheduleEvent`:
`findIndex(e => e.time > event.time)` followed by `splice(index, 0, event)`,
or `push(event)` when every queued event is at an equal or earlier time. -/
def insertChron (queue : List SimulationEvent) (event : SimulationEvent) :
    List SimulationEvent :=
  match queue.findIdx? (fun e => decide (event.time < e.time)) with
  | none => queue ++ [event]
  | some i => queue.insertIdx i event

/-- `scheduleEvent(delay, type, entityId, data)`: build the event at
`currentTime + delay`, insert it in chronological order, and return its id
together with the updated engine.  There is no rejection path and no
clamping of the delay. -/
def scheduleEvent (s : EngineState) (delay : ℚ) (type : EventType) (entityId : ℕ)
    (data : Option EventData) : String × EngineState :=
  let event := mkEvent s delay type entityId data
  (event.id,
    { s with nextEventId := s.nextEventId + 1, eventQueue := insertChron s.eventQueue event })

/-- `addTraveler(id)`: insert an idle traveler at location A and schedule its
start only when boxes are available. -/
def addTraveler (s : EngineState) (id : ℕ) : EngineState :=
  let traveler : TravelerState :=
    { id := id
      currentLocation := "A"
      stage := "idle"
      journeyStartTime := s.currentTime
      currentSegmentStartTime := s.currentTime
      x := s.locationA.x
      y := s.locationA.y
      isActive := true
      hasBox := false
      boxesProcessed := 0 }
  let s1 := { s with travelers := setBy TravelerState.id s.travelers traveler }
  if 0 < s1.availableBoxes then
    (scheduleEvent s1 100 .travelerStartJourney id none).2
  else s1

/-- `setMaxBoxes(count)`. -/
def setMaxBoxes (s : EngineState) (count : ℤ) : EngineState :=
  { s with maxBoxes := count, availableBoxes := count }

/-- `checkSimulationComplete()`: when every box is processed and the traveler
registry is empty, schedule a terminal `SIMULATION_COMPLETE` event. -/
def checkSimulationComplete (s : EngineState) : EngineState :=
  if s.maxBoxes ≤ s.totalBoxesProcessed ∧ s.travelers.length = 0 then
    (scheduleEvent s 100 .simulationComplete 0 none).2
  else s

/-- `selectTargetStation()`: scan the stations in insertion order with
`minLoad` starting at `Infinity` (modelled as `none`), skipping stations that
are not `available`; every candidate has the literal load `0`. -/
def selectTargetStation (stations : List ProcessingStation) : Option String :=
  if stations.length = 0 then none
  else
    (stations.foldl
      (fun best station =>
        if station.state ≠ .available then best
        else
          let load : ℚ := 0
          match best.2 with
          | none => (some station.id, some load)
          | some minLoad => if load < minLoad then (some station.id, some load) else best)
      ((none : Option String), (none : Option ℚ))).1

/-- `claimStation(stationId, travelerId)`: succeed only when the station
exists and is `available`; then mark it `claimed` and record the claimant.
Returns the boolean result and the updated station map. -/
def claimStation (stations : List ProcessingStation) (stationId : String) (travelerId : ℕ) :
    Bool × List ProcessingStation :=
  match stGet stations stationId with
  | none => (false, stations)
  | some station =>
      if station.state ≠ .available then (false, stations)
      else
        (true, setBy ProcessingStation.id stations
          { station with state := .claimed, claimedByTraveler := some travelerId })

/-- `calculateTravelTime(fromX, fromY, toX, toY)`:
`Math.max((distance / baseTravelerSpeed) * 20, 100)` where `distance` is the
Euclidean distance, abstracted here as the `dist` parameter. -/
def calculateTravelTime (dist : Point → Point → ℚ) (s : EngineState) (fromP toP : Point) : ℚ :=
  max (dist fromP toP / s.baseTravelerSpeed * 20) 100

/-- JS truthiness of an optional string: `undefined` (here `none`) and the
empty string are falsy. -/
def truthyStr : Option String → Bool
  | none => false
  | some s => !(s == "")

/-- `stationId = event.data?.stationId || traveler.targetStation` — JS `||`
falls through on `undefined` and on the empty string (falsy). -/
def stationIdOf (event : SimulationEvent) (traveler : TravelerState) : Option String :=
  match event.data with
  | some d =>
      match d.stationId with
      | some sid => if sid = "" then traveler.targetStation else some sid
      | none => traveler.targetStation
  | none => traveler.targetStation

/-- `processEvent(event)` (`src/unnamed/part_002`, lines 199-469).

Notes on faithfulness:
* the `switch` in the source has two `case 'TRAVELER_ARRIVE_AT_C'` labels
  (lines 232 and 427); in JavaScript only the first matching `case` runs, so
  the second (post-processing) body is dead code and every
  `TRAVELER_ARRIVE_AT_C` event is handled by the first body;
* in `TRAVELER_ARRIVE_AT_A` the traveler is mutated (snap to A, stage
  `completed`, `isActive = false`) and then deleted from the map; the net
  effect on the registry is the deletion. -/
def processEvent (dist : Point → Point → ℚ) (s : EngineState) (event : SimulationEvent) :
    EngineState :=
  match event.type with
  | .travelerStartJourney =>
      match travGet s event.entityId with
      | none => s
      | some traveler =>
        if traveler.isActive = false then s
        else if s.availableBoxes ≤ 0 then
          let t := { traveler with
              stage := "returningToA",
              currentLocation := "TRAVELING_TO_A",
              currentSegmentStartTime := s.currentTime }
          let s1 := { s with travelers := setBy TravelerState.id s.travelers t }
          let travelTimeToA := calculateTravelTime dist s1 ⟨traveler.x, traveler.y⟩ s1.locationA
          (scheduleEvent s1 travelTimeToA .travelerArriveAtA event.entityId none).2
        else
          let t := { traveler with
              stage := "movingToC",
              currentLocation := "TRAVELING_TO_C",
              currentSegmentStartTime := s.currentTime }
          let s1 := { s with travelers := setBy TravelerState.id s.travelers t }
          let initialTravelTimeToC :=
            calculateTravelTime dist s1 ⟨traveler.x, traveler.y⟩ s1.locationC
          (scheduleEvent s1 initialTravelTimeToC .travelerArriveAtC event.entityId none).2
  | .travelerArriveAtC =>
      match travGet s event.entityId with
      | none => s
      | some traveler =>
        if traveler.isActive = false then s
        else if s.availableBoxes ≤ 0 then
          let t := { traveler with
              x := s.locationC.x, y := s.locationC.y,
              stage := "returningToA",
              currentLocation := "TRAVELING_TO_A",
              currentSegmentStartTime := s.currentTime }
          let s1 := { s with travelers := setBy TravelerState.id s.travelers t }
          let travelTimeToAFromC := calculateTravelTime dist s1 s1.locationC s1.locationA
          (scheduleEvent s1 travelTimeToAFromC .travelerArriveAtA event.entityId none).2
        else
          let t := { traveler with
              x := s.locationC.x, y := s.locationC.y,
              currentLocation := "C",
              currentSegmentStartTime := s.currentTime,
              stage := "collectingAtC" }
          let s1 := { s with travelers := setBy TravelerState.id s.travelers t }
          (scheduleEvent s1 s1.collectionDuration .travelerCollectBox event.entityId none).2
  | .travelerCollectBox =>
      match travGet s event.entityId with
      | none => s
      | some traveler =>
        if traveler.isActive = false then s
        else if s.availableBoxes ≤ 0 then
          let t := { traveler with
              stage := "returningToA",
              currentLocation := "TRAVELING_TO_A",
              currentSegmentStartTime := s.currentTime }
          let s1 := { s with travelers := setBy TravelerState.id s.travelers t }
          let travelTimeToAAfterCollect := calculateTravelTime dist s1 s1.locationC s1.locationA
          (scheduleEvent s1 travelTimeToAAfterCollect .travelerArriveAtA event.entityId none).2
        else
          let t1 := { traveler with hasBox := true }
          let s1 := { s with
              availableBoxes := s.availableBoxes - 1,
              travelers := setBy TravelerState.id s.travelers t1 }
          match selectTargetStation s1.processingStations with
          | none =>
              let t2 := { t1 with
                  stage := "returningToA",
                  currentLocation := "TRAVELING_TO_A",
                  currentSegmentStartTime := s1.currentTime }
              let s2 := { s1 with travelers := setBy TravelerState.id s1.travelers t2 }
              let travelTimeToANoStations := calculateTravelTime dist s2 s2.locationC s2.locationA
              (scheduleEvent s2 travelTimeToANoStations .travelerArriveAtA event.entityId none).2
          | some targetStation =>
              let claimResult := claimStation s1.processingStations targetStation event.entityId
              if claimResult.1 = false then
                let t2 := { t1 with hasBox := false }
                let s2 := { s1 with
                    availableBoxes := s1.availableBoxes + 1,
                    travelers := setBy TravelerState.id s1.travelers t2 }
                (scheduleEvent s2 100 .travelerCollectBox event.entityId none).2
              else
                let t2 := { t1 with
                    targetStation := some targetStation,
                    currentSegmentStartTime := s1.currentTime,
                    stage := "movingTo" ++ targetStation,
                    currentLocation := "TRAVELING_TO_" ++ targetStation }
                let s2 := { s1 with
                    processingStations := claimResult.2,
                    travelers := setBy TravelerState.id s1.travelers t2 }
                match stGet s2.processingStations targetStation with
                | none => s2
                | some station =>
                    let travelTimeToStation :=
                      calculateTravelTime dist s2 s2.locationC ⟨station.x, station.y⟩
                    (scheduleEvent s2 travelTimeToStation .travelerArriveAtStation event.entityId
                      (some { stationId := some targetStation })).2
  | .travelerArriveAtStation =>
      match travGet s event.entityId with
      | none => s
      | some traveler =>
        if traveler.isActive = false then s
        else
          match stationIdOf event traveler with
          | none => s
          | some stationId =>
            match stGet s.processingStations stationId with
            | none => s
            | some arrivalStation =>
              if arrivalStation.claimedByTraveler ≠ some event.entityId then
                let t := { traveler with
                    stage := "returningToA",
                    currentLocation := "TRAVELING_TO_A",
                    currentSegmentStartTime := s.currentTime }
                let s1 := { s with travelers := setBy TravelerState.id s.travelers t }
                let travelTimeToA :=
                  calculateTravelTime dist s1 ⟨arrivalStation.x, arrivalStation.y⟩ s1.locationA
                (scheduleEvent s1 travelTimeToA .travelerArriveAtA event.entityId none).2
              else
                let t := { traveler with
                    x := arrivalStation.x, y := arrivalStation.y,
                    currentLocation := stationId,
                    currentSegmentStartTime := s.currentTime,
                    stage := "processingAt" ++ stationId }
                let station' := { arrivalStation with
                    state := .active,
                    currentProcessingTraveler := some event.entityId }
                let s1 := { s with
                    travelers := setBy TravelerState.id s.travelers t,
                    processingStations :=
                    setBy ProcessingStation.id s.processingStations station' }
                (scheduleEvent s1 s1.processingDuration .travelerFinishProcessing event.entityId
                  (some { stationId := some stationId })).2
  | .travelerFinishProcessing =>
      match travGet s event.entityId with
      | none => s
      | some traveler =>
        if traveler.isActive = false then s
        else
          match stationIdOf event traveler with
          | none => s
          | some processingStationId =>
            match stGet s.processingStations processingStationId with
            | none => s
            | some processingStation =>
              let t1 := { traveler with
                  hasBox := false,
                  boxesProcessed := traveler.boxesProcessed + 1 }
              let station' := { processingStation with
                  state := .available,
                  currentProcessingTraveler := none,
                  claimedByTraveler := none }
              let s1 := { s with
                  totalBoxesProcessed := s.totalBoxesProcessed + 1,
                  travelers := setBy TravelerState.id s.travelers t1,
                  processingStations :=
                  setBy ProcessingStation.id s.processingStations station' }
              if s1.maxBoxes ≤ s1.totalBoxesProcessed then
                let t2 := { t1 with
                    stage := "returningToA",
                    currentLocation := "TRAVELING_TO_A",
                    currentSegmentStartTime := s1.currentTime }
                let s2 := { s1 with travelers := setBy TravelerState.id s1.travelers t2 }
                let directTravelTimeToA :=
                  calculateTravelTime dist s2 ⟨processingStation.x, processingStation.y⟩
                    s2.locationA
                (scheduleEvent s2 directTravelTimeToA .travelerArriveAtA event.entityId none).2
              else
                let t2 := { t1 with
                    stage := "returningToC",
                    currentLocation := "TRAVELING_TO_C",
                    currentSegmentStartTime := s1.currentTime }
                let s2 := { s1 with travelers := setBy TravelerState.id s1.travelers t2 }
                let returnTravelTimeToC :=
                  calculateTravelTime dist s2 ⟨processingStation.x, processingStation.y⟩
                    s2.locationC
                (scheduleEvent s2 returnTravelTimeToC .travelerArriveAtC event.entityId
                  (some { postProcessing := true })).2
  | .travelerArriveAtA =>
      match travGet s event.entityId with
      | none => s
      | some traveler =>
        if traveler.isActive = false then s
        else
          let s1 := { s with travelers := delBy TravelerState.id s.travelers event.entityId }
          checkSimulationComplete s1
  | .simulationComplete => { s with isRunning := false }

/-- The events that are due now: `time <= currentTime`. -/
def dueCount (s : EngineState) : ℕ :=
  (s.eventQueue.filter (fun e => decide (e.time ≤ s.currentTime))).length

/-- The drain loop of `step()`:
`while (eventQueue.length > 0 && eventQueue[0].time <= currentTime) { shift; processEvent }`,
written with explicit fuel; it also returns the list of processed events.
`step` runs it with `dueCount` fuel, which is enough (see `drainAux_drained`). -/
def drainAux (dist : Point → Point → ℚ) : ℕ → EngineState → EngineState × List SimulationEvent
  | 0, s => (s, [])
  | fuel + 1, s =>
      match s.eventQueue with
      | [] => (s, [])
      | e :: rest =>
          if e.time ≤ s.currentTime then
            let result := drainAux dist fuel (processEvent dist { s with eventQueue := rest } e)
            (result.1, e :: result.2)
          else (s, [])

/-- `step()`: when running, drain all due events in queue order, then — if the
engine is still running (a drained `SIMULATION_COMPLETE` may have stopped it)
— advance virtual time by `50 * simulationSpeed`. -/
def step (dist : Point → Point → ℚ) (s : EngineState) : EngineState :=
  if s.isRunning = false then s
  else
    let s1 := (drainAux dist (dueCount s) s).1
    if s1.isRunning then { s1 with currentTime := s1.currentTime + 50 * s1.simulationSpeed }
    else s1

/-- Iterated `step()` calls. -/
def stepIter (dist : Point → Point → ℚ) (s : EngineState) : ℕ → EngineState
  | 0 => s
  | n + 1 => step dist (stepIter dist s n)

/-- `s.startsWith(p)`, written over the character lists so that it is
executable by kernel reduction (the core byte-based `String.startsWith` is
not). -/
def strStartsWith (s p : String) : Bool :=
  s.data.take p.data.length == p.data

/-- The loop body of `getTravelerStates()` (lines 475-537): the snapshot copy
of one active traveler, with the position of a traveling traveler replaced by
the interpolated position.  The branch structure follows the source: the
`TRAVELING_TO_C` test comes first; the second branch tests
`currentLocation.startsWith('TRAVELING_TO_') && traveler.targetStation`
(JS truthiness: a recorded empty-string station id is falsy and skips the
branch; a nonempty one also captures `TRAVELING_TO_A`); the
`TRAVELING_TO_A` branch always interpolates from the collection point C.
The `returningToC` start derivation guards `traveler.targetStation` the same
way. -/
def renderTraveler (dist : Point → Point → ℚ) (s : EngineState) (traveler : TravelerState) :
    TravelerState :=
  if traveler.currentLocation = "TRAVELING_TO_C" then
    let elapsed := s.currentTime - traveler.currentSegmentStartTime
    let start : Point :=
      if traveler.stage = "returningToC" then
        if truthyStr traveler.targetStation then
          match traveler.targetStation with
          | some ts =>
              match stGet s.processingStations ts with
              | some station => ⟨station.x, station.y⟩
              | none => s.locationA
          | none => s.locationA
        else s.locationA
      else s.locationA
    let totalTime := calculateTravelTime dist s start s.locationC
    let progress := min (elapsed / totalTime) 1
    { traveler with
        x := start.x + (s.locationC.x - start.x) * progress,
        y := start.y + (s.locationC.y - start.y) * progress }
  else if strStartsWith traveler.currentLocation "TRAVELING_TO_"
      && truthyStr traveler.targetStation then
    match traveler.targetStation with
    | none => traveler
    | some targetStationId =>
        match stGet s.processingStations targetStationId with
        | none => traveler
        | some targetStation =>
            let elapsed := s.currentTime - traveler.currentSegmentStartTime
            let startX := s.locationC.x
            let startY := s.locationC.y
            let totalTime := calculateTravelTime dist s ⟨startX, startY⟩
              ⟨targetStation.x, targetStation.y⟩
            let progress := min (elapsed / totalTime) 1
            { traveler with
                x := startX + (targetStation.x - startX) * progress,
                y := startY + (targetStation.y - startY) * progress }
  else if traveler.currentLocation = "TRAVELING_TO_A" then
    let elapsed := s.currentTime - traveler.currentSegmentStartTime
    let totalTime := calculateTravelTime dist s s.locationC s.locationA
    let progress := min (elapsed / totalTime) 1
    { traveler with
        x := s.locationC.x + (s.locationA.x - s.locationC.x) * progress,
        y := s.locationC.y + (s.locationA.y - s.locationC.y) * progress }
  else traveler

/-- `getTravelerStates()`: snapshot of all active travelers with interpolated
positions, in registry order. -/
def getTravelerStates (dist : Point → Point → ℚ) (s : EngineState) : List TravelerState :=
  (s.travelers.filter (fun t => t.isActive)).map (renderTraveler dist s)

/-- `start()` (without the `setInterval` driver, which only calls `step`). -/
def startEngine (s : EngineState) : EngineState :=
  if s.isRunning then s
  else { s with isRunning := true, hasBeenInitialized := true }

/-- `stop()` (without the interval bookkeeping). -/
def stopEngine (s : EngineState) : EngineState :=
  { s with isRunning := false }

/-- `reset()`. -/
def resetEngine (s : EngineState) : EngineState :=
  let clearStation (station : ProcessingStation) : ProcessingStation :=
    { station with
        state := .available
        currentProcessingTraveler := none
        claimedByTraveler := none
        waiting := [] }
  { s with
      isRunning := false
      eventQueue := []
      travelers := []
      processingStations := s.processingStations.map clearStation
      availableBoxes := s.maxBoxes
      totalBoxesProcessed := 0
      currentTime := 0
      nextEventId := 1
      hasBeenInitialized := false }

/-- `setSimulationSpeed(newSpeed)`. -/
def setSimulationSpeed (s : EngineState) (newSpeed : ℚ) : EngineState :=
  { s with simulationSpeed := newSpeed }

/-- `updateLocations(locA, locC)`. -/
def updateLocations (s : EngineState) (locA locC : Point) : EngineState :=
  { s with locationA := locA, locationC := locC }

/-! ## Definitions supporting the claims -/

/-- Number of boxes currently held by active travelers in the registry. -/
def carriedBoxes (s : EngineState) : ℤ :=
  ((s.travelers.filter (fun t => t.isActive && t.hasBox)).length : ℤ)

/-- The conservation quantity of the spec:
`availableBoxes + (boxes held by active travelers) + totalProcessed`. -/
def boxSum (s : EngineState) : ℤ :=
  s.availableBoxes + carriedBoxes s + s.totalBoxesProcessed

/-- Event types that drive a specific traveler (every type except the
terminal `SIMULATION_COMPLETE`). -/
def travelerDirected (ty : EventType) : Prop :=
  ty ≠ .simulationComplete

/-- Queued traveler-directed events target pairwise distinct travelers. -/
def evR (a b : SimulationEvent) : Prop :=
  travelerDirected a.type → travelerDirected b.type → a.entityId ≠ b.entityId

/-- States reachable through the public engine API from a fresh engine. -/
inductive Reachable (dist : Point → Point → ℚ) : EngineState → Prop where
  | init : Reachable dist initialState
  | setMax {s} (count : ℤ) : Reachable dist s → Reachable dist (setMaxBoxes s count)
  | addStation {s} (id : String) (x y : ℚ) :
      Reachable dist s → Reachable dist (addProcessingStation s id x y)
  | removeStation {s} (id : String) :
      Reachable dist s → Reachable dist (removeProcessingStation s id)
  | updateStationLoc {s} (id : String) (x y : ℚ) :
      Reachable dist s → Reachable dist (updateProcessingStationLocation s id x y)
  | updateLocs {s} (locA locC : Point) :
      Reachable dist s → Reachable dist (updateLocations s locA locC)
  | addTrav {s} (id : ℕ) : Reachable dist s → Reachable dist (addTraveler s id)
  | startR {s} : Reachable dist s → Reachable dist (startEngine s)
  | stopR {s} : Reachable dist s → Reachable dist (stopEngine s)
  | setSpeed {s} (v : ℚ) : Reachable dist s → Reachable dist (setSimulationSpeed s v)
  | resetR {s} : Reachable dist s → Reachable dist (resetEngine s)
  | stepR {s} : Reachable dist s → Reachable dist (step dist s)

/-- States reachable from the initialization sequence fixed by the
conservation claim: `setMaxBoxes(B)` first, then any interleaving of
traveler admissions (with fresh ids, as the collaborator guarantees:
admission always uses a new id), station management, driver control and
`step()` ticks.  `setMaxBoxes` is not re-invoked mid-run. -/
inductive ReachableRun (dist : Point → Point → ℚ) (B : ℤ) : EngineState → Prop where
  | init : ReachableRun dist B (setMaxBoxes initialState B)
  | addStation {s} (id : String) (x y : ℚ) :
      ReachableRun dist B s → ReachableRun dist B (addProcessingStation s id x y)
  | removeStation {s} (id : String) :
      ReachableRun dist B s → ReachableRun dist B (removeProcessingStation s id)
  | updateStationLoc {s} (id : String) (x y : ℚ) :
      ReachableRun dist B s → ReachableRun dist B (updateProcessingStationLocation s id x y)
  | updateLocs {s} (locA locC : Point) :
      ReachableRun dist B s → ReachableRun dist B (updateLocations s locA locC)
  | addTrav {s} (id : ℕ) :
      travGet s id = none → (∀ e ∈ s.eventQueue, e.entityId ≠ id) →
      ReachableRun dist B s → ReachableRun dist B (addTraveler s id)
  | startR {s} : ReachableRun dist B s → ReachableRun dist B (startEngine s)
  | stopR {s} : ReachableRun dist B s → ReachableRun dist B (stopEngine s)
  | setSpeed {s} (v : ℚ) : ReachableRun dist B s → ReachableRun dist B (setSimulationSpeed s v)
  | resetR {s} : ReachableRun dist B s → ReachableRun dist B (resetEngine s)
  | stepR {s} : ReachableRun dist B s → ReachableRun dist B (step dist s)

/-- The inductive invariant behind the (amended) conservation claim. -/
def ConservationInv (B : ℤ) (s : EngineState) : Prop :=
  s.maxBoxes = B ∧
  (s.travelers.map TravelerState.id).Nodup ∧
  s.eventQueue.Pairwise evR ∧
  (∀ e ∈ s.eventQueue,
    (e.type = .travelerArriveAtStation ∨ e.type = .travelerFinishProcessing) →
    ∀ t, travGet s e.entityId = some t → t.hasBox = true) ∧
  boxSum s ≤ B

/-- Station-level single-occupancy invariant: an `available` station has no
claimant and no occupant; a `claimed` station has no occupant yet; an
`active` station is occupied by its claimant. -/
def occInv (station : ProcessingStation) : Prop :=
  (station.state = .available →
    station.claimedByTraveler = none ∧ station.currentProcessingTraveler = none) ∧
  (station.state = .claimed → station.currentProcessingTraveler = none) ∧
  (station.state = .active →
    station.claimedByTraveler ≠ none ∧
    station.currentProcessingTraveler = station.claimedByTraveler)

/-- Invariant on the station map: unique station ids and per-station
single occupancy. -/
def StationsInv (s : EngineState) : Prop :=
  (s.processingStations.map ProcessingStation.id).Nodup ∧
  ∀ station ∈ s.processingStations, occInv station

/-- Engine evolutions allowed after a traveler `id` has been admitted, for
the starvation claim: everything except external interference with that
traveler (`reset`, or re-admitting the same id). -/
inductive SimEvolution (dist : Point → Point → ℚ) (id : ℕ) :
    EngineState → EngineState → Prop where
  | refl (s) : SimEvolution dist id s s
  | stepE {s s'} : SimEvolution dist id s s' → SimEvolution dist id s (step dist s')
  | addTravE {s s'} (id' : ℕ) : id' ≠ id →
      SimEvolution dist id s s' → SimEvolution dist id s (addTraveler s' id')
  | addStationE {s s'} (sid : String) (x y : ℚ) :
      SimEvolution dist id s s' → SimEvolution dist id s (addProcessingStation s' sid x y)
  | removeStationE {s s'} (sid : String) :
      SimEvolution dist id s s' → SimEvolution dist id s (removeProcessingStation s' sid)
  | updateStationLocE {s s'} (sid : String) (x y : ℚ) :
      SimEvolution dist id s s' →
      SimEvolution dist id s (updateProcessingStationLocation s' sid x y)
  | updateLocsE {s s'} (locA locC : Point) :
      SimEvolution dist id s s' → SimEvolution dist id s (updateLocations s' locA locC)
  | startE {s s'} : SimEvolution dist id s s' → SimEvolution dist id s (startEngine s')
  | stopE {s s'} : SimEvolution dist id s s' → SimEvolution dist id s (stopEngine s')
  | setSpeedE {s s'} (v : ℚ) :
      SimEvolution dist id s s' → SimEvolution dist id s (setSimulationSpeed s' v)
  | setMaxE {s s'} (count : ℤ) :
      SimEvolution dist id s s' → SimEvolution dist id s (setMaxBoxes s' count)

/-- A degenerate distance instantiation (every travel takes the minimum
100ms): used for the concrete counterexample runs, which do not depend on
the metric. -/
def dist0 : Point → Point → ℚ := fun _ _ => 0

/-- Scenario for the conservation counterexample: one box, one traveler,
no processing stations. -/
def consViolationStart : EngineState :=
  startEngine (addTraveler (setMaxBoxes initialState 1) 1)

/-- The state after the single traveler has collected the box, found no
station, returned to A carrying the box, and been removed (27 ticks). -/
def consViolationState : EngineState := stepIter dist0 consViolationStart 27

/-- The conservation claim as stated: every state reachable from the
initialization sequence satisfies `boxSum = B`. -/
def conservationClaim : Prop :=
  ∀ (dist : Point → Point → ℚ) (B : ℤ) (s : EngineState),
    ReachableRun dist B s → boxSum s = B

/-- Build an engine configuration for the termination claim:
`setMaxBoxes(B)`, add the given stations and travelers, set the speed
multiplier, then `start()`. -/
def setupEngine (B : ℤ) (stations : List (String × ℚ × ℚ)) (travelerIds : List ℕ)
    (speed : ℚ) : EngineState :=
  startEngine
    (setSimulationSpeed
      ((travelerIds.foldl addTraveler
        (stations.foldl (fun s p => addProcessingStation s p.1 p.2.1 p.2.2)
          (setMaxBoxes initialState B)))) speed)

/-- The termination claim as stated: for every configuration with `B > 0`
boxes, at least one station and at least one traveler added before start,
some finite number of `step()` calls reaches `totalBoxesProcessed = B` with
an empty traveler registry. -/
def terminationClaim : Prop :=
  ∀ (dist : Point → Point → ℚ) (B : ℤ) (stations : List (String × ℚ × ℚ))
    (travelerIds : List ℕ) (speed : ℚ),
    0 < B → stations ≠ [] → travelerIds ≠ [] →
    ∃ n, (stepIter dist (setupEngine B stations travelerIds speed) n).totalBoxesProcessed
        = B ∧
      (stepIter dist (setupEngine B stations travelerIds speed) n).travelers.length = 0

/-- Scenario C of the spec: 3 travelers, 5 boxes, 2 stations, default speed. -/
def scenarioCStart : EngineState :=
  setupEngine 5 [("S1", 300, 300), ("S2", 400, 300)] [1, 2, 3] 1

/-- The termination counterexample configuration: 2 boxes, one station, two
travelers, speed multiplier 100 (so the engine is driven well past the event
horizon in a handful of ticks).  Both travelers collect a box at the same
virtual instant; the second finds the only station already claimed, walks
its box back to A and is deleted there, losing the box: the run stalls with
1 of 2 boxes processed and no travelers. -/
def stallStart : EngineState :=
  setupEngine 2 [("S1", 300, 300)] [1, 2] 100

/-- The stall configuration after `n` ticks (degenerate metric). -/
def stallRun (n : ℕ) : EngineState := stepIter dist0 stallStart n

/-- Scenario for the interpolation counterexample: one traveler, one box,
one station at (300, 300). -/
def interpStart : EngineState :=
  startEngine (addTraveler (addProcessingStation (setMaxBoxes initialState 1) "S1" 300 300) 1)

/-- The interpolation scenario read out at virtual time 3350, while the
traveler is halfway from the station back to A (segment started at 3300). -/
def interpReadState : EngineState := stepIter dist0 interpStart 67

/-- The position formula asserted by the spec (§4.5) for a traveler in a
"traveling to X" location: linear interpolation between the segment's start
point and the destination point, parameterized by
`min(1, (currentTime - segmentStartTime) / travelTime(start, destination))`.
The start point of the current segment is the traveler's recorded
coordinates `(x, y)`: the engine snaps these at the end of every segment,
so at read time they hold exactly the point where the current segment
began.  The destination is read off `currentLocation` (for a traveler
moving to a station, the engine records that station in `targetStation`). -/
def specInterpolatedPosition (dist : Point → Point → ℚ) (s : EngineState)
    (t : TravelerState) : Point :=
  let dest : Option Point :=
    if t.currentLocation = "TRAVELING_TO_A" then some s.locationA
    else if t.currentLocation = "TRAVELING_TO_C" then some s.locationC
    else if strStartsWith t.currentLocation "TRAVELING_TO_" then
      match t.targetStation with
      | some sid => (stGet s.processingStations sid).map (fun st => (⟨st.x, st.y⟩ : Point))
      | none => none
    else none
  match dest with
  | none => ⟨t.x, t.y⟩
  | some d =>
      let startP : Point := ⟨t.x, t.y⟩
      let totalTime := calculateTravelTime dist s startP d
      let progress := min ((s.currentTime - t.currentSegmentStartTime) / totalTime) 1
      ⟨startP.x + (d.x - startP.x) * progress, startP.y + (d.y - startP.y) * progress⟩

/-- The claimed-station transition disjunction: unchanged, converted to
`active` by its claimant, or released. -/
def claimedNext (st st' : ProcessingStation) : Prop :=
  (st'.state = .claimed ∧ st'.claimedByTraveler = st.claimedByTraveler) ∨
  (st'.state = .active ∧ st'.claimedByTraveler = st.claimedByTraveler ∧
    st'.currentProcessingTraveler = st.claimedByTraveler) ∨
  st'.state = .available

/-- Invariant behind the starvation claim: traveler `id` sits idle and
active in the registry, and no queued event other than a terminal
`SIMULATION_COMPLETE` targets it. -/
def IdleInv (id : ℕ) (s : EngineState) : Prop :=
  (∃ t, travGet s id = some t ∧ t.stage = "idle" ∧ t.isActive = true) ∧
  (∀ e ∈ s.eventQueue, e.entityId ≠ id ∨ e.type = .simulationComplete)

/-- A traveler freshly en route from A to C, used to witness the amended
interpolation property. -/
def interpWitnessTraveler : TravelerState where
  id := 1
  currentLocation := "TRAVELING_TO_C"
  stage := "movingToC"
  journeyStartTime := 0
  currentSegmentStartTime := 0
  x := 55
  y := 105
  isActive := true
  targetStation := none
  hasBox := false
  boxesProcessed := 0

/-- Ordering relation on queued events used by the ordering claim. -/
def timeLE (a b : SimulationEvent) : Prop := a.time ≤ b.time

/-- Fold a list of schedule requests through `scheduleEvent`. -/
def scheduleMany (s : EngineState)
    (reqs : List (ℚ × EventType × ℕ × Option EventData)) : EngineState :=
  reqs.foldl (fun s r => (scheduleEvent s r.1 r.2.1 r.2.2.1 r.2.2.2).2) s

/-! ## Lemmas about the JS-map model -/

section AssocMapLemmas

variable {α : Type} {κ : Type} [BEq κ] [LawfulBEq κ]

theorem getBy_cons (key : α → κ) (a : α) (l : List α) (k : κ) :
    getBy key (a :: l) k = if key a == k then some a else getBy key l k := by
  simp only [getBy, List.find?_cons]
  by_cases h : key a == k
  · simp [h]
  · simp [h]

theorem getBy_eq_some {key : α → κ} {l : List α} {k : κ} {u : α}
    (h : getBy key l k = some u) :
    ∃ l1 l2, l = l1 ++ u :: l2 ∧ key u = k ∧ ∀ b ∈ l1, ¬ key b = k := by
  induction l with
  | nil => simp [getBy] at h
  | cons a l ih =>
    rw [getBy_cons] at h
    by_cases ha : (key a == k) = true
    · rw [if_pos ha] at h
      have hau : a = u := Option.some.injEq .. |>.mp h
      subst hau
      exact ⟨[], l, rfl, beq_iff_eq.mp ha, by simp⟩
    · rw [if_neg ha] at h
      obtain ⟨l1, l2, hl, hk, h1⟩ := ih h
      refine ⟨a :: l1, l2, by rw [hl]; rfl, hk, ?_⟩
      intro b hb
      rcases List.mem_cons.mp hb with rfl | hb
      · intro heq; exact ha (beq_iff_eq.mpr heq)
      · exact h1 b hb

theorem map_replace_of_no_match {key : α → κ} {l : List α} (a : α)
    (h : ∀ b ∈ l, ¬ key b = key a) :
    l.map (fun b => if key b == key a then a else b) = l := by
  induction l with
  | nil => rfl
  | cons b l ih =>
      have hb : (key b == key a) = false :=
        beq_eq_false_iff_ne.mpr (h b (List.mem_cons_self b l))
      simp only [List.map_cons, hb, if_neg, Bool.false_eq_true, not_false_iff,
        ih (fun c hc => h c (List.mem_cons_of_mem _ hc))]

theorem setBy_decomp {key : α → κ} {l1 l2 : List α} {u : α} (a : α)
    (hu : key u = key a)
    (h1 : ∀ b ∈ l1, ¬ key b = key a) (h2 : ∀ b ∈ l2, ¬ key b = key a) :
    setBy key (l1 ++ u :: l2) a = l1 ++ a :: l2 := by
  have hany : (l1 ++ u :: l2).any (fun b => key b == key a) = true := by
    simp only [List.any_eq_true]
    exact ⟨u, by simp, beq_iff_eq.mpr hu⟩
  simp only [setBy, hany, if_pos, List.map_append, List.map_cons,
    map_replace_of_no_match a h1, map_replace_of_no_match a h2,
    beq_iff_eq.mpr hu, if_pos]

theorem getBy_setBy_self {key : α → κ} (l : List α) (a : α) :
    getBy key (setBy key l a) (key a) = some a := by
  unfold setBy
  by_cases hany : l.any (fun b => key b == key a) = true
  · rw [if_pos hany]
    induction l with
    | nil => simp at hany
    | cons b l ih =>
        by_cases hb : (key b == key a) = true
        · simp [getBy_cons, hb]
        · simp only [List.any_cons, hb, Bool.false_or] at hany
          simp only [List.map_cons, hb, if_neg, Bool.false_eq_true, not_false_iff]
          rw [getBy_cons, if_neg (by simp [hb]), ih hany]
  · rw [if_neg hany]
    have hnone : getBy key l (key a) = none := by
      unfold getBy
      rw [List.find?_eq_none]
      intro b hb
      simp only [List.any_eq_true, not_exists, not_and] at hany
      exact hany b hb
    unfold getBy at hnone ⊢
    rw [List.find?_append, hnone]
    simp

theorem getBy_setBy_ne {key : α → κ} (l : List α) (a : α) (k : κ) (hk : ¬ k = key a) :
    getBy key (setBy key l a) k = getBy key l k := by
  unfold setBy
  by_cases hany : l.any (fun b => key b == key a) = true
  · rw [if_pos hany]
    induction l with
    | nil => rfl
    | cons b l ih =>
        by_cases hb : (key b == key a) = true
        · have hbk : (key b == k) = false := by
            have : key b = key a := beq_iff_eq.mp hb
            exact beq_eq_false_iff_ne.mpr (by rw [this]; intro h; exact hk h.symm)
          have hak : (key a == k) = false :=
            beq_eq_false_iff_ne.mpr (fun h => hk h.symm)
          simp only [List.map_cons, hb, if_pos, getBy_cons, hak, hbk,
            Bool.false_eq_true, if_neg, not_false_iff]
          by_cases hany' : l.any (fun b => key b == key a) = true
          · exact ih hany'
          · rw [map_replace_of_no_match a]
            intro c hc hca
            simp only [List.any_eq_true, not_exists, not_and] at hany'
            have := hany' c hc
            simp [hca] at this
        · simp only [List.any_cons, hb, Bool.false_or] at hany
          simp only [List.map_cons, hb, if_neg, Bool.false_eq_true, not_false_iff]
          rw [getBy_cons, getBy_cons]
          by_cases hbk : (key b == k) = true
          · simp [hbk]
          · simp only [hbk, Bool.false_eq_true, if_neg, not_false_iff]
            exact ih hany
  · rw [if_neg hany]
    unfold getBy
    rw [List.find?_append]
    have : ([a].find? (fun b => key b == k)) = none := by
      simp [beq_eq_false_iff_ne.mpr (fun h => hk h.symm)]
    rw [this]
    simp

theorem map_key_setBy {key : α → κ} (l : List α) (a : α) :
    (setBy key l a).map key = l.map key ∨
    ((setBy key l a).map key = l.map key ++ [key a] ∧ ∀ b ∈ l, ¬ key b = key a) := by
  unfold setBy
  by_cases hany : l.any (fun b => key b == key a) = true
  · left
    rw [if_pos hany, List.map_map]
    apply List.map_congr_left
    intro b _
    by_cases hb : (key b == key a) = true
    · simp [Function.comp, hb, beq_iff_eq.mp hb]
    · simp [Function.comp, hb]
  · right
    rw [if_neg hany]
    refine ⟨by simp, ?_⟩
    intro b hb hba
    simp only [List.any_eq_true, not_exists, not_and] at hany
    have := hany b hb
    simp [hba] at this

theorem nodup_map_key_setBy {key : α → κ} {l : List α} (a : α)
    (h : (l.map key).Nodup) : ((setBy key l a).map key).Nodup := by
  have hcase : (setBy key l a).map key = l.map key ∨
      ((setBy key l a).map key = l.map key ++ [key a] ∧ ∀ b ∈ l, ¬ key b = key a) :=
    map_key_setBy l a
  rcases hcase with heq | ⟨heq, hfresh⟩
  · rw [heq]; exact h
  · rw [heq]
    apply List.Nodup.append h (List.nodup_singleton _)
    intro k hk1 hk2
    rcases List.mem_map.mp hk1 with ⟨b, hb, rfl⟩
    exact hfresh b hb (List.mem_singleton.mp hk2)

theorem nodup_map_key_delBy {key : α → κ} {l : List α} (k : κ)
    (h : (l.map key).Nodup) : ((delBy key l k).map key).Nodup :=
  ((List.filter_sublist l).map key).nodup h

theorem getBy_of_mem_nodup {key : α → κ} {l : List α} {a : α}
    (hnd : (l.map key).Nodup) (ha : a ∈ l) : getBy key l (key a) = some a := by
  induction l with
  | nil => exact absurd ha (List.not_mem_nil a)
  | cons b l ih =>
      rw [getBy_cons]
      rcases List.mem_cons.mp ha with rfl | ha
      · simp
      · have hb : ¬ key b = key a := by
          intro h
          have : key a ∈ l.map key := List.mem_map_of_mem key ha
          rw [List.map_cons, List.nodup_cons] at hnd
          exact hnd.1 (h ▸ this)
        rw [if_neg (by simp [hb])]
        exact ih (List.nodup_cons.mp (by rwa [List.map_cons] at hnd)).2 ha

theorem getBy_delBy_self {key : α → κ} (l : List α) (k : κ) :
    getBy key (delBy key l k) k = none := by
  unfold getBy delBy
  rw [List.find?_eq_none]
  intro b hb
  have := List.of_mem_filter hb
  simpa using this

theorem getBy_delBy_ne {key : α → κ} (l : List α) (k k' : κ) (h : ¬ k' = k) :
    getBy key (delBy key l k') k = getBy key l k := by
  induction l with
  | nil => rfl
  | cons b l ih =>
      show getBy key ((b :: l).filter (fun a => !(key a == k'))) k = getBy key (b :: l) k
      rw [List.filter_cons]
      by_cases hb : (key b == k') = true
      · rw [if_neg (by simp [hb])]
        conv_rhs => rw [getBy_cons]
        have hbk : (key b == k) = false := by
          have hb' : key b = k' := beq_iff_eq.mp hb
          exact beq_eq_false_iff_ne.mpr (by rw [hb']; exact h)
        rw [if_neg (by simp [hbk])]
        exact ih
      · rw [if_pos (by simp [hb])]
        rw [getBy_cons]
        conv_rhs => rw [getBy_cons]
        by_cases hbk : (key b == k) = true
        · simp [hbk]
        · rw [if_neg (by simp [hbk]), if_neg (by simp [hbk])]
          exact ih

theorem nodup_decomp_no_match_right {key : α → κ} {l1 l2 : List α} {u : α}
    (hnd : ((l1 ++ u :: l2).map key).Nodup) : ∀ b ∈ l2, ¬ key b = key u := by
  intro b hb hk
  rw [List.map_append, List.map_cons] at hnd
  have h2 := hnd.of_append_right
  exact (List.nodup_cons.mp h2).1 (hk ▸ List.mem_map_of_mem key hb)

theorem delBy_decomp {key : α → κ} {l1 l2 : List α} {u : α} (k : κ)
    (hu : key u = k) (h1 : ∀ b ∈ l1, ¬ key b = k) (h2 : ∀ b ∈ l2, ¬ key b = k) :
    delBy key (l1 ++ u :: l2) k = l1 ++ l2 := by
  unfold delBy
  rw [List.filter_append, List.filter_cons, if_neg (by simp [hu])]
  rw [List.filter_eq_self.mpr (fun b hb => by simp [h1 b hb]),
    List.filter_eq_self.mpr (fun b hb => by simp [h2 b hb])]

theorem countP_setBy {key : α → κ} {l : List α} {u a : α} (p : α → Bool)
    (hnd : (l.map key).Nodup) (hu : getBy key l (key a) = some u) :
    (setBy key l a).countP p + (if p u then 1 else 0)
      = l.countP p + (if p a then 1 else 0) := by
  obtain ⟨l1, l2, rfl, hku, h1⟩ := getBy_eq_some hu
  have h2 : ∀ b ∈ l2, ¬ key b = key a := by
    intro b hb
    rw [← hku]
    exact nodup_decomp_no_match_right hnd b hb
  rw [setBy_decomp a hku h1 h2, List.countP_append, List.countP_append,
    List.countP_cons, List.countP_cons]
  by_cases hpu : p u = true <;> by_cases hpa : p a = true <;> simp [hpu, hpa] <;> omega

theorem countP_delBy {key : α → κ} {l : List α} {u : α} (k : κ) (p : α → Bool)
    (hnd : (l.map key).Nodup) (hu : getBy key l k = some u) :
    (delBy key l k).countP p + (if p u then 1 else 0) = l.countP p := by
  obtain ⟨l1, l2, rfl, hku, h1⟩ := getBy_eq_some hu
  have h2 : ∀ b ∈ l2, ¬ key b = k := by
    intro b hb
    rw [← hku]
    exact nodup_decomp_no_match_right hnd b hb
  rw [delBy_decomp k hku h1 h2, List.countP_append, List.countP_append,
    List.countP_cons]
  by_cases hpu : p u = true <;> simp [hpu] <;> omega

end AssocMapLemmas

/-! ## Lemmas about the chronological insert -/

theorem insertChron_nil (e : SimulationEvent) : insertChron [] e = [e] := rfl

theorem insertChron_cons (x : SimulationEvent) (xs : List SimulationEvent)
    (e : SimulationEvent) :
    insertChron (x :: xs) e =
      if e.time < x.time then e :: x :: xs else x :: insertChron xs e := by
  unfold insertChron
  rw [List.findIdx?_cons]
  by_cases h : e.time < x.time
  · simp [h]
  · rw [if_neg (by simp [h]), if_neg h, List.findIdx?_succ]
    cases hfind : xs.findIdx? (fun e' => decide (e.time < e'.time)) with
    | none => simp
    | some i => simp [List.insertIdx_succ_cons]

theorem insertChron_perm (q : List SimulationEvent) (e : SimulationEvent) :
    (insertChron q e).Perm (e :: q) := by
  induction q with
  | nil => simp [insertChron_nil]
  | cons x xs ih =>
      rw [insertChron_cons]
      by_cases h : e.time < x.time
      · rw [if_pos h]
      · rw [if_neg h]
        exact (List.Perm.cons x ih).trans (List.Perm.swap e x xs)

theorem mem_insertChron {q : List SimulationEvent} {e x : SimulationEvent} :
    x ∈ insertChron q e ↔ x = e ∨ x ∈ q := by
  rw [(insertChron_perm q e).mem_iff, List.mem_cons]

theorem countP_insertChron (q : List SimulationEvent) (e : SimulationEvent)
    (p : SimulationEvent → Bool) :
    (insertChron q e).countP p = q.countP p + (if p e then 1 else 0) := by
  rw [(insertChron_perm q e).countP_eq, List.countP_cons]

theorem insertChron_sorted (q : List SimulationEvent) (e : SimulationEvent)
    (hq : List.Sorted timeLE q) : List.Sorted timeLE (insertChron q e) := by
  induction q with
  | nil => simp [insertChron_nil]
  | cons x xs ih =>
      rw [insertChron_cons]
      rcases List.sorted_cons.mp hq with ⟨hx, hxs⟩
      by_cases h : e.time < x.time
      · rw [if_pos h]
        exact List.sorted_cons.mpr ⟨fun b hb => by
          rcases List.mem_cons.mp hb with rfl | hb
          · exact le_of_lt h
          · exact le_trans (le_of_lt h) (hx b hb), hq⟩
      · rw [if_neg h]
        refine List.sorted_cons.mpr ⟨?_, ih hxs⟩
        intro b hb
        rcases mem_insertChron.mp hb with rfl | hb
        · exact not_lt.mp h
        · exact hx b hb

theorem insertChron_eq_takeWhile_dropWhile (q : List SimulationEvent)
    (e : SimulationEvent) :
    insertChron q e =
      q.takeWhile (fun x => decide (x.time ≤ e.time)) ++
        e :: q.dropWhile (fun x => decide (x.time ≤ e.time)) := by
  induction q with
  | nil => simp [insertChron_nil]
  | cons x xs ih =>
      rw [insertChron_cons, List.takeWhile_cons, List.dropWhile_cons]
      by_cases h : e.time < x.time
      · have hx : ¬ x.time ≤ e.time := not_le.mpr h
        simp [h, hx]
      · have hx : x.time ≤ e.time := not_lt.mp h
        simp [h, hx, ih]

/-! ## Projection facts about `scheduleEvent` -/

@[simp] theorem scheduleEvent_currentTime (s : EngineState) (d : ℚ) (ty : EventType)
    (ent : ℕ) (da : Option EventData) :
    (scheduleEvent s d ty ent da).2.currentTime = s.currentTime := rfl

@[simp] theorem scheduleEvent_isRunning (s : EngineState) (d : ℚ) (ty : EventType)
    (ent : ℕ) (da : Option EventData) :
    (scheduleEvent s d ty ent da).2.isRunning = s.isRunning := rfl

@[simp] theorem scheduleEvent_travelers (s : EngineState) (d : ℚ) (ty : EventType)
    (ent : ℕ) (da : Option EventData) :
    (scheduleEvent s d ty ent da).2.travelers = s.travelers := rfl

@[simp] theorem scheduleEvent_stations (s : EngineState) (d : ℚ) (ty : EventType)
    (ent : ℕ) (da : Option EventData) :
    (scheduleEvent s d ty ent da).2.processingStations = s.processingStations := rfl

@[simp] theorem scheduleEvent_availableBoxes (s : EngineState) (d : ℚ) (ty : EventType)
    (ent : ℕ) (da : Option EventData) :
    (scheduleEvent s d ty ent da).2.availableBoxes = s.availableBoxes := rfl

@[simp] theorem scheduleEvent_totalBoxesProcessed (s : EngineState) (d : ℚ)
    (ty : EventType) (ent : ℕ) (da : Option EventData) :
    (scheduleEvent s d ty ent da).2.totalBoxesProcessed = s.totalBoxesProcessed := rfl

@[simp] theorem scheduleEvent_maxBoxes (s : EngineState) (d : ℚ) (ty : EventType)
    (ent : ℕ) (da : Option EventData) :
    (scheduleEvent s d ty ent da).2.maxBoxes = s.maxBoxes := rfl

@[simp] theorem scheduleEvent_simulationSpeed (s : EngineState) (d : ℚ) (ty : EventType)
    (ent : ℕ) (da : Option EventData) :
    (scheduleEvent s d ty ent da).2.simulationSpeed = s.simulationSpeed := rfl

@[simp] theorem scheduleEvent_baseTravelerSpeed (s : EngineState) (d : ℚ)
    (ty : EventType) (ent : ℕ) (da : Option EventData) :
    (scheduleEvent s d ty ent da).2.baseTravelerSpeed = s.baseTravelerSpeed := rfl

@[simp] theorem scheduleEvent_collectionDuration (s : EngineState) (d : ℚ)
    (ty : EventType) (ent : ℕ) (da : Option EventData) :
    (scheduleEvent s d ty ent da).2.collectionDuration = s.collectionDuration := rfl

@[simp] theorem scheduleEvent_processingDuration (s : EngineState) (d : ℚ)
    (ty : EventType) (ent : ℕ) (da : Option EventData) :
    (scheduleEvent s d ty ent da).2.processingDuration = s.processingDuration := rfl

@[simp] theorem scheduleEvent_locationA (s : EngineState) (d : ℚ) (ty : EventType)
    (ent : ℕ) (da : Option EventData) :
    (scheduleEvent s d ty ent da).2.locationA = s.locationA := rfl

@[simp] theorem scheduleEvent_locationC (s : EngineState) (d : ℚ) (ty : EventType)
    (ent : ℕ) (da : Option EventData) :
    (scheduleEvent s d ty ent da).2.locationC = s.locationC := rfl

@[simp] theorem scheduleEvent_eventQueue (s : EngineState) (d : ℚ) (ty : EventType)
    (ent : ℕ) (da : Option EventData) :
    (scheduleEvent s d ty ent da).2.eventQueue
      = insertChron s.eventQueue (mkEvent s d ty ent da) := rfl

@[simp] theorem mkEvent_time (s : EngineState) (d : ℚ) (ty : EventType)
    (ent : ℕ) (da : Option EventData) :
    (mkEvent s d ty ent da).time = s.currentTime + d := rfl

@[simp] theorem mkEvent_type (s : EngineState) (d : ℚ) (ty : EventType)
    (ent : ℕ) (da : Option EventData) :
    (mkEvent s d ty ent da).type = ty := rfl

@[simp] theorem mkEvent_entityId (s : EngineState) (d : ℚ) (ty : EventType)
    (ent : ℕ) (da : Option EventData) :
    (mkEvent s d ty ent da).entityId = ent := rfl

/-! ## Claims C5, C6, C8 -/

/-- C5 (counterexample): a negative delay is NOT clamped to zero — from the
fresh engine (current virtual time 0), scheduling with delay −100 inserts an
event at time −100, which is earlier than the current virtual time. -/
theorem scheduleEvent_negative_delay_not_clamped :
    ((scheduleEvent initialState (-100) .travelerStartJourney 1 none).2.eventQueue.map
        SimulationEvent.time) = [(-100 : ℚ)] ∧
    ¬ ((0 : ℚ) ≤ -100) ∧ initialState.currentTime = 0 := by
  refine ⟨?_, by norm_num, rfl⟩
  rw [show (scheduleEvent initialState (-100) .travelerStartJourney 1 none).2.eventQueue
      = [mkEvent initialState (-100) .travelerStartJourney 1 none] from rfl]
  rw [List.map_cons, List.map_nil, mkEvent_time,
    show initialState.currentTime = 0 from rfl]
  norm_num

/-- C5 (amended): `scheduleEvent` never rejects a request — for every delay
value, including negative ones, the event is inserted (the queue grows by
one and contains it) and its id is returned; but the delay is not clamped:
the event's time is exactly `currentTime + delay`, which for a negative
delay lies before the current virtual time. -/
theorem scheduleEvent_never_rejects (s : EngineState) (delay : ℚ) (ty : EventType)
    (ent : ℕ) (da : Option EventData) :
    (scheduleEvent s delay ty ent da).1 = (mkEvent s delay ty ent da).id ∧
    (scheduleEvent s delay ty ent da).2.eventQueue.length = s.eventQueue.length + 1 ∧
    mkEvent s delay ty ent da ∈ (scheduleEvent s delay ty ent da).2.eventQueue ∧
    (mkEvent s delay ty ent da).time = s.currentTime + delay := by
  refine ⟨rfl, ?_, ?_, rfl⟩
  · rw [scheduleEvent_eventQueue, (insertChron_perm s.eventQueue _).length_eq,
      List.length_cons]
  · rw [scheduleEvent_eventQueue]
    exact mem_insertChron.mpr (Or.inl rfl)

/-- Helper for C6: any sequence of `scheduleEvent` calls keeps the queue
sorted by time. -/
theorem scheduleMany_sorted (reqs : List (ℚ × EventType × ℕ × Option EventData))
    (s : EngineState) (hs : List.Sorted timeLE s.eventQueue) :
    List.Sorted timeLE (scheduleMany s reqs).eventQueue := by
  induction reqs generalizing s with
  | nil => exact hs
  | cons r rs ih =>
      exact ih _ (by rw [scheduleEvent_eventQueue]; exact insertChron_sorted _ _ hs)

/-- C6: the insert of `scheduleEvent` is stable — the new event is placed
after every queued event with equal or earlier time and before the first
strictly later event — and consequently, after any sequence of
`scheduleEvent` calls starting from a time-sorted queue (in particular the
empty initial queue), the queue is sorted by time ascending with ties in
insertion order. -/
theorem scheduleEvent_queue_ordering (s : EngineState) (delay : ℚ) (ty : EventType)
    (ent : ℕ) (da : Option EventData)
    (reqs : List (ℚ × EventType × ℕ × Option EventData))
    (hs : List.Sorted timeLE s.eventQueue) :
    (scheduleEvent s delay ty ent da).2.eventQueue
      = s.eventQueue.takeWhile (fun e => decide (e.time ≤ s.currentTime + delay))
        ++ mkEvent s delay ty ent da ::
          s.eventQueue.dropWhile (fun e => decide (e.time ≤ s.currentTime + delay)) ∧
    List.Sorted timeLE (scheduleEvent s delay ty ent da).2.eventQueue ∧
    List.Sorted timeLE (scheduleMany s reqs).eventQueue := by
  refine ⟨?_, ?_, scheduleMany_sorted reqs s hs⟩
  · rw [scheduleEvent_eventQueue]
    exact insertChron_eq_takeWhile_dropWhile s.eventQueue (mkEvent s delay ty ent da)
  · rw [scheduleEvent_eventQueue]
    exact insertChron_sorted _ _ hs

/-- Witness for C6 at a concrete input: scheduling from the fresh engine's
empty queue yields a sorted queue. -/
theorem scheduleEvent_queue_ordering_witness :
    List.Sorted timeLE (scheduleEvent initialState 100 .travelerStartJourney 1
      none).2.eventQueue :=
  (scheduleEvent_queue_ordering initialState 100 .travelerStartJourney 1 none []
    List.sorted_nil).2.1

/-- C8: the station claim contract.  `claimStation` returns `true` exactly
when the station exists and is `available`; on failure the station map is
untouched; on success the station's state becomes `claimed` with the
traveler recorded as claimant (its occupant field is untouched). -/
theorem claimStation_contract (stations : List ProcessingStation) (stationId : String)
    (travelerId : ℕ) :
    ((claimStation stations stationId travelerId).1 = true ↔
      ∃ st, stGet stations stationId = some st ∧ st.state = .available) ∧
    ((claimStation stations stationId travelerId).1 = false →
      (claimStation stations stationId travelerId).2 = stations) ∧
    (∀ st, stGet stations stationId = some st → st.state = .available →
      stGet (claimStation stations stationId travelerId).2 stationId
        = some { st with state := .claimed, claimedByTraveler := some travelerId }) := by
  unfold claimStation
  split
  next heq =>
    refine ⟨?_, fun _ => rfl, ?_⟩
    · constructor
      · intro hfalse; exact absurd hfalse (by simp)
      · rintro ⟨st', hst', _⟩; rw [heq] at hst'; exact absurd hst' (by simp)
    · intro st' hst' _; rw [heq] at hst'; exact absurd hst' (by simp)
  next st heq =>
    split
    next hne =>
      refine ⟨?_, fun _ => rfl, ?_⟩
      · constructor
        · intro hfalse; exact absurd hfalse (by simp)
        · rintro ⟨st', hst', havail⟩
          rw [heq] at hst'
          have h2 : st' = st := (Option.some.injEq .. |>.mp hst').symm
          exact absurd (h2 ▸ havail) hne
      · intro st' hst' havail
        rw [heq] at hst'
        have h2 : st' = st := (Option.some.injEq .. |>.mp hst').symm
        exact absurd (h2 ▸ havail) hne
    next hne =>
      have hst : st.state = .available := not_not.mp hne
      have hid : st.id = stationId := (getBy_eq_some heq).choose_spec.choose_spec.2.1
      refine ⟨⟨fun _ => ⟨st, heq, hst⟩, fun _ => rfl⟩, ?_, ?_⟩
      · intro hfalse; exact absurd hfalse (by simp)
      · intro st' hst' _
        rw [heq] at hst'
        have h2 : st' = st := (Option.some.injEq .. |>.mp hst').symm
        subst h2
        rw [← hid]
        exact getBy_setBy_self stations
          { st' with state := .claimed, claimedByTraveler := some travelerId }

/-- Witness for C8 at a concrete input: claiming an available station
succeeds. -/
theorem claimStation_contract_witness :
    (claimStation [⟨"S1", 1, 2, .available, none, none, []⟩] "S1" 7).1 = true :=
  ((claimStation_contract [⟨"S1", 1, 2, .available, none, none, []⟩] "S1" 7).1).mpr
    ⟨⟨"S1", 1, 2, .available, none, none, []⟩, by decide, rfl⟩

/-! ## Branch facts about `processEvent` -/

theorem processEvent_const_fields (dist : Point → Point → ℚ) (s : EngineState)
    (e : SimulationEvent) :
    (processEvent dist s e).currentTime = s.currentTime ∧
    (processEvent dist s e).simulationSpeed = s.simulationSpeed ∧
    (processEvent dist s e).collectionDuration = s.collectionDuration ∧
    (processEvent dist s e).processingDuration = s.processingDuration ∧
    (processEvent dist s e).baseTravelerSpeed = s.baseTravelerSpeed ∧
    (processEvent dist s e).locationA = s.locationA ∧
    (processEvent dist s e).locationC = s.locationC ∧
    (processEvent dist s e).maxBoxes = s.maxBoxes := by
  unfold processEvent checkSimulationComplete
  repeat' (first | split | simp only [])
  all_goals repeat' constructor

theorem calculateTravelTime_pos (dist : Point → Point → ℚ) (s : EngineState)
    (p q : Point) : 0 < calculateTravelTime dist s p q :=
  lt_of_lt_of_le (by norm_num) (le_max_right _ 100)

theorem hundred_pos : (0 : ℚ) < 100 := by norm_num

theorem perm_nil_append (q : List SimulationEvent) : q.Perm ([] ++ q) := by simp

theorem currentTime_lt_mkEvent_time {s : EngineState} {d : ℚ} (ty : EventType)
    (ent : ℕ) (da : Option EventData) (hd : 0 < d) :
    s.currentTime < (mkEvent s d ty ent da).time := by
  rw [mkEvent_time]
  linarith

/-- Every event inserted by a single `processEvent` call is strictly in the
future: the queue of the result is a permutation of the old queue plus a
(possibly empty) batch of events with `time > currentTime`. -/
theorem processEvent_queue_perm (dist : Point → Point → ℚ) (s : EngineState)
    (e : SimulationEvent) (hcol : 0 < s.collectionDuration)
    (hproc : 0 < s.processingDuration) :
    ∃ evs, (processEvent dist s e).eventQueue.Perm (evs ++ s.eventQueue) ∧
      ∀ ev ∈ evs, s.currentTime < ev.time := by
  unfold processEvent checkSimulationComplete
  repeat' (first | split | simp only [])
  all_goals
    first
    | exact ⟨[], perm_nil_append _, fun ev hev => absurd hev (List.not_mem_nil ev)⟩
    | (refine ⟨[_], insertChron_perm _ _, ?_⟩
       intro ev hev
       rw [List.mem_singleton.mp hev]
       first
       | exact currentTime_lt_mkEvent_time _ _ _ hundred_pos
       | exact currentTime_lt_mkEvent_time _ _ _ hcol
       | exact currentTime_lt_mkEvent_time _ _ _ hproc
       | exact currentTime_lt_mkEvent_time _ _ _ (calculateTravelTime_pos dist _ _ _))

/-- `processEvent` keeps traveler ids unique in the registry. -/
theorem processEvent_travelers_nodup (dist : Point → Point → ℚ) (s : EngineState)
    (e : SimulationEvent) (h : (s.travelers.map TravelerState.id).Nodup) :
    ((processEvent dist s e).travelers.map TravelerState.id).Nodup := by
  unfold processEvent checkSimulationComplete
  repeat' (first | split | simp only [])
  all_goals
    first
    | exact h
    | exact nodup_map_key_setBy _ h
    | exact nodup_map_key_setBy _ (nodup_map_key_setBy _ h)
    | exact nodup_map_key_delBy _ h

theorem evR_symm : Symmetric evR :=
  fun _ _ hab hb ha => (hab ha hb).symm

/-- Processing the head event preserves the pairwise-distinct-target
property of the queue: the handler schedules follow-up events only for the
entity of the consumed event (plus, possibly, the non-traveler
`SIMULATION_COMPLETE` event). -/
theorem processEvent_queue_pairwise (dist : Point → Point → ℚ) (s : EngineState)
    (e : SimulationEvent) (hD : (e :: s.eventQueue).Pairwise evR) :
    (processEvent dist s e).eventQueue.Pairwise evR := by
  obtain ⟨eid, etime, ty, ent, da⟩ := e
  cases ty <;>
    (unfold processEvent checkSimulationComplete
     repeat' (first | simp only [] | split)
     all_goals
       first
       | exact List.Pairwise.of_cons hD
       | (refine (List.Perm.pairwise_iff (fun h => evR_symm h) (insertChron_perm _ _)).mpr
           (List.pairwise_cons.mpr ⟨?_, List.Pairwise.of_cons hD⟩)
          intro e' he'
          first
          | exact fun h1 _ => absurd rfl h1
          | exact fun _ h2 =>
              (List.rel_of_pairwise_cons hD he') (fun h => EventType.noConfusion h) h2))

theorem travGet_id {s : EngineState} {id : ℕ} {t : TravelerState}
    (h : travGet s id = some t) : t.id = id :=
  (getBy_eq_some h).choose_spec.choose_spec.2.1

theorem tdir_of_hty {ty : EventType}
    (h : ty = .travelerArriveAtStation ∨ ty = .travelerFinishProcessing) :
    travelerDirected ty := by
  rcases h with h | h <;> subst h <;> exact fun hh => EventType.noConfusion hh

/-- Transfer of the pending-box-event clause across one handler execution
that extends the queue with one event `ev` and rewrites the registry without
touching travelers other than the consumed event's entity. -/
theorem hasBox_clause_step {e : SimulationEvent} {q : List SimulationEvent}
    {ts ts' : List TravelerState} {ev : SimulationEvent}
    (hD : (e :: q).Pairwise evR) (htdirE : travelerDirected e.type)
    (hH : ∀ e' ∈ e :: q,
      (e'.type = .travelerArriveAtStation ∨ e'.type = .travelerFinishProcessing) →
      ∀ t, getBy TravelerState.id ts e'.entityId = some t → t.hasBox = true)
    (hpres : ∀ i, i ≠ e.entityId →
      getBy TravelerState.id ts' i = getBy TravelerState.id ts i)
    (hev : (ev.type = .travelerArriveAtStation ∨ ev.type = .travelerFinishProcessing) →
      ∀ t, getBy TravelerState.id ts' ev.entityId = some t → t.hasBox = true) :
    ∀ e' ∈ insertChron q ev,
      (e'.type = .travelerArriveAtStation ∨ e'.type = .travelerFinishProcessing) →
      ∀ t, getBy TravelerState.id ts' e'.entityId = some t → t.hasBox = true := by
  intro e' he' hty t ht
  rcases mem_insertChron.mp he' with rfl | he'
  · exact hev hty t ht
  · have hne : e'.entityId ≠ e.entityId := fun hh =>
      (List.rel_of_pairwise_cons hD he') htdirE (tdir_of_hty hty) hh.symm
    exact hH e' (List.mem_cons_of_mem _ he') hty t (by rwa [hpres _ hne] at ht)

/-- Same transfer when the handler leaves the queue unchanged. -/
theorem hasBox_clause_keep {e : SimulationEvent} {q : List SimulationEvent}
    {ts ts' : List TravelerState}
    (hD : (e :: q).Pairwise evR) (htdirE : travelerDirected e.type)
    (hH : ∀ e' ∈ e :: q,
      (e'.type = .travelerArriveAtStation ∨ e'.type = .travelerFinishProcessing) →
      ∀ t, getBy TravelerState.id ts e'.entityId = some t → t.hasBox = true)
    (hpres : ∀ i, i ≠ e.entityId →
      getBy TravelerState.id ts' i = getBy TravelerState.id ts i) :
    ∀ e' ∈ q,
      (e'.type = .travelerArriveAtStation ∨ e'.type = .travelerFinishProcessing) →
      ∀ t, getBy TravelerState.id ts' e'.entityId = some t → t.hasBox = true := by
  intro e' he' hty t ht
  have hne : e'.entityId ≠ e.entityId := fun hh =>
    (List.rel_of_pairwise_cons hD he') htdirE (tdir_of_hty hty) hh.symm
  exact hH e' (List.mem_cons_of_mem _ he') hty t (by rwa [hpres _ hne] at ht)

/-- Preservation of the pending-box-event clause: after processing the head
event, every queued `TRAVELER_ARRIVE_AT_STATION` or
`TRAVELER_FINISH_PROCESSING` event still targets a traveler holding a box. -/
theorem processEvent_hasBox_clause (dist : Point → Point → ℚ) (s : EngineState)
    (e : SimulationEvent)
    (hD : (e :: s.eventQueue).Pairwise evR)
    (hH : ∀ e' ∈ e :: s.eventQueue,
      (e'.type = .travelerArriveAtStation ∨ e'.type = .travelerFinishProcessing) →
      ∀ t, travGet s e'.entityId = some t → t.hasBox = true) :
    ∀ e' ∈ (processEvent dist s e).eventQueue,
      (e'.type = .travelerArriveAtStation ∨ e'.type = .travelerFinishProcessing) →
      ∀ t, travGet (processEvent dist s e) e'.entityId = some t → t.hasBox = true := by
  obtain ⟨eid, etime, ty, ent, da⟩ := e
  cases ty <;>
    (unfold processEvent checkSimulationComplete
     repeat' (first | simp only [] | split)
     all_goals
       first
       | exact fun e' he' => hH e' (List.mem_cons_of_mem _ he')
       | (refine hasBox_clause_step hD (fun hh => EventType.noConfusion hh) hH ?_ ?_
          intro i hi
          apply getBy_delBy_ne
          exact fun hh => hi hh.symm
          exact fun h => h.elim (fun h1 => EventType.noConfusion h1)
            (fun h1 => EventType.noConfusion h1))
       | (refine hasBox_clause_keep hD (fun hh => EventType.noConfusion hh) hH ?_
          intro i hi
          apply getBy_delBy_ne
          exact fun hh => hi hh.symm)
       | (have hid := travGet_id (show travGet s _ = some _ by assumption)
          refine hasBox_clause_step hD (fun hh => EventType.noConfusion hh) hH ?_ ?_
          intro i hi
          apply getBy_setBy_ne
          exact fun hh => hi (hh.trans hid)
          exact fun h => h.elim (fun h1 => EventType.noConfusion h1)
            (fun h1 => EventType.noConfusion h1))
       | (have hid := travGet_id (show travGet s _ = some _ by assumption)
          refine hasBox_clause_step hD (fun hh => EventType.noConfusion hh) hH ?_ ?_
          intro i hi
          refine (getBy_setBy_ne _ _ _ ?_).trans (getBy_setBy_ne _ _ _ ?_)
          exact fun hh => hi (hh.trans hid)
          exact fun hh => hi (hh.trans hid)
          exact fun h => h.elim (fun h1 => EventType.noConfusion h1)
            (fun h1 => EventType.noConfusion h1))
       | (have hid := travGet_id (show travGet s _ = some _ by assumption)
          refine hasBox_clause_keep hD (fun hh => EventType.noConfusion hh) hH ?_
          intro i hi
          apply getBy_setBy_ne
          exact fun hh => hi (hh.trans hid))
       | (have hid := travGet_id (show travGet s _ = some _ by assumption)
          refine hasBox_clause_keep hD (fun hh => EventType.noConfusion hh) hH ?_
          intro i hi
          refine (getBy_setBy_ne _ _ _ ?_).trans (getBy_setBy_ne _ _ _ ?_)
          exact fun hh => hi (hh.trans hid)
          exact fun hh => hi (hh.trans hid))
       | (have hu := (show travGet s _ = some _ by assumption)
          have hid := travGet_id hu
          refine hasBox_clause_step hD (fun hh => EventType.noConfusion hh) hH ?_ ?_
          intro i hi
          refine (getBy_setBy_ne _ _ _ ?_).trans (getBy_setBy_ne _ _ _ ?_)
          exact fun hh => hi (hh.trans hid)
          exact fun hh => hi (hh.trans hid)
          intro _ t ht
          simp only [mkEvent_entityId] at ht
          rw [← hid] at ht
          have hcomb := Eq.trans (getBy_setBy_self _ _).symm ht
          obtain rfl := (Option.some.injEq .. |>.mp hcomb)
          rfl)
       | (have hu := (show travGet s _ = some _ by assumption)
          have hid := travGet_id hu
          refine hasBox_clause_step hD (fun hh => EventType.noConfusion hh) hH ?_ ?_
          intro i hi
          apply getBy_setBy_ne
          exact fun hh => hi (hh.trans hid)
          intro _ t ht
          simp only [mkEvent_entityId] at ht
          rw [← hid] at ht
          have hcomb := Eq.trans (getBy_setBy_self _ _).symm ht
          obtain rfl := (Option.some.injEq .. |>.mp hcomb)
          have hres := hH _ (List.mem_cons_self _ _) (Or.inl rfl) _ hu
          exact hres))

theorem carried_after_setBy (t' : TravelerState) {ts : List TravelerState}
    {u : TravelerState} {k : ℕ}
    (hN : (ts.map TravelerState.id).Nodup) (hk : TravelerState.id t' = k)
    (hu : getBy TravelerState.id ts k = some u) :
    (((setBy TravelerState.id ts t').countP (fun t => t.isActive && t.hasBox)) : ℤ)
      = ((ts.countP (fun t => t.isActive && t.hasBox)) : ℤ)
        + (if t'.isActive && t'.hasBox then 1 else 0)
        - (if u.isActive && u.hasBox then 1 else 0) := by
  have hu' : getBy TravelerState.id ts (TravelerState.id t') = some u := by
    rw [hk]
    exact hu
  have h1 := countP_setBy (fun t => t.isActive && t.hasBox) hN hu'
  by_cases h2 : (t'.isActive && t'.hasBox) = true <;>
    by_cases h3 : (u.isActive && u.hasBox) = true <;>
      simp [h2, h3] at h1 ⊢ <;> omega

theorem carried_after_delBy {ts : List TravelerState} {u : TravelerState} {k : ℕ}
    (hN : (ts.map TravelerState.id).Nodup)
    (hu : getBy TravelerState.id ts k = some u) :
    (((delBy TravelerState.id ts k).countP (fun t => t.isActive && t.hasBox)) : ℤ)
      = ((ts.countP (fun t => t.isActive && t.hasBox)) : ℤ)
        - (if u.isActive && u.hasBox then 1 else 0) := by
  have h1 := countP_delBy k (fun t => t.isActive && t.hasBox) hN hu
  by_cases h3 : (u.isActive && u.hasBox) = true <;> simp [h3] at h1 ⊢ <;> omega

theorem checkSim_availableBoxes (s : EngineState) :
    (checkSimulationComplete s).availableBoxes = s.availableBoxes := by
  unfold checkSimulationComplete
  split <;> rfl

theorem checkSim_totalBoxesProcessed (s : EngineState) :
    (checkSimulationComplete s).totalBoxesProcessed = s.totalBoxesProcessed := by
  unfold checkSimulationComplete
  split <;> rfl

theorem checkSim_travelers (s : EngineState) :
    (checkSimulationComplete s).travelers = s.travelers := by
  unfold checkSimulationComplete
  split <;> rfl

/-- Processing one event never increases the conservation quantity
`availableBoxes + carriedBoxes + totalBoxesProcessed`.  The only fact needed
about the consumed event is that a `TRAVELER_ARRIVE_AT_STATION` or
`TRAVELER_FINISH_PROCESSING` event targets a box-holding traveler. -/
theorem processEvent_boxSum_le (dist : Point → Point → ℚ) (s : EngineState)
    (e : SimulationEvent)
    (hN : (s.travelers.map TravelerState.id).Nodup)
    (hHead : (e.type = .travelerArriveAtStation ∨ e.type = .travelerFinishProcessing) →
      ∀ t, travGet s e.entityId = some t → t.hasBox = true) :
    boxSum (processEvent dist s e) ≤ boxSum s := by
  obtain ⟨eid, etime, ty, ent, da⟩ := e
  cases ty
  case travelerStartJourney =>
    unfold processEvent
    simp only []
    split
    next => exact le_refl _
    next traveler hu =>
      have hid := travGet_id hu
      split
      next => exact le_refl _
      next hact =>
        split
        next hbox =>
          unfold boxSum carriedBoxes
          simp only [scheduleEvent_availableBoxes, scheduleEvent_totalBoxesProcessed,
            scheduleEvent_travelers, ← List.countP_eq_length_filter]
          rw [carried_after_setBy { traveler with
              stage := "returningToA",
              currentLocation := "TRAVELING_TO_A",
              currentSegmentStartTime := s.currentTime } hN hid hu]
          split_ifs <;> omega
        next hbox =>
          unfold boxSum carriedBoxes
          simp only [scheduleEvent_availableBoxes, scheduleEvent_totalBoxesProcessed,
            scheduleEvent_travelers, ← List.countP_eq_length_filter]
          rw [carried_after_setBy { traveler with
              stage := "movingToC",
              currentLocation := "TRAVELING_TO_C",
              currentSegmentStartTime := s.currentTime } hN hid hu]
          split_ifs <;> omega
  case travelerArriveAtC =>
    unfold processEvent
    simp only []
    split
    next => exact le_refl _
    next traveler hu =>
      have hid := travGet_id hu
      split
      next => exact le_refl _
      next hact =>
        split
        next hbox =>
          unfold boxSum carriedBoxes
          simp only [scheduleEvent_availableBoxes, scheduleEvent_totalBoxesProcessed,
            scheduleEvent_travelers, ← List.countP_eq_length_filter]
          rw [carried_after_setBy { traveler with
              x := s.locationC.x, y := s.locationC.y,
              stage := "returningToA", currentLocation := "TRAVELING_TO_A",
              currentSegmentStartTime := s.currentTime } hN hid hu]
          split_ifs <;> omega
        next hbox =>
          unfold boxSum carriedBoxes
          simp only [scheduleEvent_availableBoxes, scheduleEvent_totalBoxesProcessed,
            scheduleEvent_travelers, ← List.countP_eq_length_filter]
          rw [carried_after_setBy { traveler with
              x := s.locationC.x, y := s.locationC.y,
              currentLocation := "C", currentSegmentStartTime := s.currentTime,
              stage := "collectingAtC" } hN hid hu]
          split_ifs <;> omega
  case travelerCollectBox =>
    unfold processEvent
    simp only []
    split
    next => exact le_refl _
    next traveler hu =>
      have hid := travGet_id hu
      split
      next => exact le_refl _
      next hact =>
        have hact' : traveler.isActive = true := by
          rcases Bool.eq_false_or_eq_true traveler.isActive with h | h
          · exact h
          · exact absurd h hact
        split
        next hbox =>
          unfold boxSum carriedBoxes
          simp only [scheduleEvent_availableBoxes, scheduleEvent_totalBoxesProcessed,
            scheduleEvent_travelers, ← List.countP_eq_length_filter]
          rw [carried_after_setBy { traveler with
              stage := "returningToA",
              currentLocation := "TRAVELING_TO_A",
              currentSegmentStartTime := s.currentTime } hN hid hu]
          split_ifs <;> omega
        next hbox =>
          have hN1 : ((setBy TravelerState.id s.travelers
              { traveler with hasBox := true }).map TravelerState.id).Nodup :=
            nodup_map_key_setBy _ hN
          have hu1 : getBy TravelerState.id (setBy TravelerState.id s.travelers
              { traveler with hasBox := true }) ent
              = some { traveler with hasBox := true } := by
            rw [← hid]
            exact getBy_setBy_self _ _
          split
          next hsel =>
            unfold boxSum carriedBoxes
            simp only [scheduleEvent_availableBoxes, scheduleEvent_totalBoxesProcessed,
              scheduleEvent_travelers, ← List.countP_eq_length_filter]
            rw [carried_after_setBy { traveler with
                hasBox := true,
                stage := "returningToA", currentLocation := "TRAVELING_TO_A",
                currentSegmentStartTime := s.currentTime } hN1 hid hu1,
              carried_after_setBy { traveler with hasBox := true } hN hid hu]
            simp [hact']
            first
            | omega
            | split_ifs <;> omega
          next targetStation hsel =>
            split
            next hclaim =>
              unfold boxSum carriedBoxes
              simp only [scheduleEvent_availableBoxes, scheduleEvent_totalBoxesProcessed,
                scheduleEvent_travelers, ← List.countP_eq_length_filter]
              rw [carried_after_setBy { traveler with hasBox := false } hN1 hid hu1,
                carried_after_setBy { traveler with hasBox := true } hN hid hu]
              simp [hact']
              first
              | omega
              | split_ifs <;> omega
            next hclaim =>
              split
              next hst =>
                unfold boxSum carriedBoxes
                simp only [← List.countP_eq_length_filter]
                rw [carried_after_setBy { traveler with
                    hasBox := true,
                    targetStation := some targetStation,
                    currentSegmentStartTime := s.currentTime,
                    stage := "movingTo" ++ targetStation,
                    currentLocation := "TRAVELING_TO_" ++ targetStation } hN1 hid hu1,
                  carried_after_setBy { traveler with hasBox := true } hN hid hu]
                simp [hact']
                first
                | omega
                | split_ifs <;> omega
              next station hst =>
                unfold boxSum carriedBoxes
                simp only [scheduleEvent_availableBoxes, scheduleEvent_totalBoxesProcessed,
                  scheduleEvent_travelers, ← List.countP_eq_length_filter]
                rw [carried_after_setBy { traveler with
                    hasBox := true,
                    targetStation := some targetStation,
                    currentSegmentStartTime := s.currentTime,
                    stage := "movingTo" ++ targetStation,
                    currentLocation := "TRAVELING_TO_" ++ targetStation } hN1 hid hu1,
                  carried_after_setBy { traveler with hasBox := true } hN hid hu]
                simp [hact']
                first
                | omega
                | split_ifs <;> omega
  case travelerArriveAtStation =>
    unfold processEvent
    simp only []
    split
    next => exact le_refl _
    next traveler hu =>
      have hid := travGet_id hu
      split
      next => exact le_refl _
      next hact =>
        split
        next => exact le_refl _
        next stationId hsid =>
          split
          next => exact le_refl _
          next arrivalStation hst =>
            split
            next hcl =>
              unfold boxSum carriedBoxes
              simp only [scheduleEvent_availableBoxes, scheduleEvent_totalBoxesProcessed,
                scheduleEvent_travelers, ← List.countP_eq_length_filter]
              rw [carried_after_setBy { traveler with
                  stage := "returningToA",
                  currentLocation := "TRAVELING_TO_A",
                  currentSegmentStartTime := s.currentTime } hN hid hu]
              split_ifs <;> omega
            next hcl =>
              unfold boxSum carriedBoxes
              simp only [scheduleEvent_availableBoxes, scheduleEvent_totalBoxesProcessed,
                scheduleEvent_travelers, ← List.countP_eq_length_filter]
              rw [carried_after_setBy { traveler with
                  x := arrivalStation.x,
                  y := arrivalStation.y, currentLocation := stationId,
                  currentSegmentStartTime := s.currentTime,
                  stage := "processingAt" ++ stationId } hN hid hu]
              split_ifs <;> omega
  case travelerFinishProcessing =>
    unfold processEvent
    simp only []
    split
    next => exact le_refl _
    next traveler hu =>
      have hid := travGet_id hu
      split
      next => exact le_refl _
      next hact =>
        have hact' : traveler.isActive = true := by
          rcases Bool.eq_false_or_eq_true traveler.isActive with h | h
          · exact h
          · exact absurd h hact
        have hbox : traveler.hasBox = true := hHead (Or.inr rfl) traveler hu
        split
        next => exact le_refl _
        next processingStationId hsid =>
          split
          next => exact le_refl _
          next processingStation hst =>
            have hN1 : ((setBy TravelerState.id s.travelers
                { traveler with
                    hasBox := false,
                    boxesProcessed := traveler.boxesProcessed + 1 }).map
                  TravelerState.id).Nodup :=
              nodup_map_key_setBy _ hN
            have hu1 : getBy TravelerState.id (setBy TravelerState.id s.travelers
                { traveler with
                    hasBox := false,
                    boxesProcessed := traveler.boxesProcessed + 1 }) ent
                = some { traveler with
                    hasBox := false,
                    boxesProcessed := traveler.boxesProcessed + 1 } := by
              rw [← hid]
              exact getBy_setBy_self _ _
            split
            next hmax =>
              unfold boxSum carriedBoxes
              simp only [scheduleEvent_availableBoxes, scheduleEvent_totalBoxesProcessed,
                scheduleEvent_travelers, ← List.countP_eq_length_filter]
              rw [carried_after_setBy { traveler with
                  hasBox := false,
                  boxesProcessed := traveler.boxesProcessed + 1,
                  stage := "returningToA", currentLocation := "TRAVELING_TO_A",
                  currentSegmentStartTime := s.currentTime } hN1 hid hu1,
                carried_after_setBy { traveler with
                    hasBox := false,
                    boxesProcessed := traveler.boxesProcessed + 1 } hN hid hu]
              simp [hact', hbox]
              first
              | omega
              | split_ifs <;> omega
            next hmax =>
              unfold boxSum carriedBoxes
              simp only [scheduleEvent_availableBoxes, scheduleEvent_totalBoxesProcessed,
                scheduleEvent_travelers, ← List.countP_eq_length_filter]
              rw [carried_after_setBy { traveler with
                  hasBox := false,
                  boxesProcessed := traveler.boxesProcessed + 1,
                  stage := "returningToC", currentLocation := "TRAVELING_TO_C",
                  currentSegmentStartTime := s.currentTime } hN1 hid hu1,
                carried_after_setBy { traveler with
                    hasBox := false,
                    boxesProcessed := traveler.boxesProcessed + 1 } hN hid hu]
              simp [hact', hbox]
              first
              | omega
              | split_ifs <;> omega
  case travelerArriveAtA =>
    unfold processEvent
    simp only []
    split
    next => exact le_refl _
    next traveler hu =>
      split
      next => exact le_refl _
      next hact =>
        unfold boxSum carriedBoxes
        simp only [checkSim_availableBoxes, checkSim_totalBoxesProcessed,
          checkSim_travelers, ← List.countP_eq_length_filter]
        rw [carried_after_delBy hN hu]
        split_ifs <;> omega
  case simulationComplete => exact le_refl _

/-! ## Preservation of the conservation invariant -/

theorem setBy_of_getBy_none {α κ : Type} [BEq κ] {key : α → κ} {l : List α}
    {a : α} (h : getBy key l (key a) = none) : setBy key l a = l ++ [a] := by
  unfold setBy
  rw [if_neg]
  intro hany
  rcases List.any_eq_true.mp hany with ⟨b, hb, hbeq⟩
  exact List.find?_eq_none.mp h b hb hbeq

/-- `ConservationInv` only depends on the box counters, the traveler registry
and the event queue. -/
theorem consInv_of_fields {B : ℤ} {s s' : EngineState}
    (hM : s'.maxBoxes = s.maxBoxes) (hT : s'.travelers = s.travelers)
    (hQ : s'.eventQueue = s.eventQueue) (hA : s'.availableBoxes = s.availableBoxes)
    (hP : s'.totalBoxesProcessed = s.totalBoxesProcessed)
    (h : ConservationInv B s) : ConservationInv B s' := by
  obtain ⟨h1, h2, h3, h4, h5⟩ := h
  refine ⟨hM.trans h1, ?_, ?_, ?_, ?_⟩
  · rw [hT]; exact h2
  · rw [hQ]; exact h3
  · intro e he hty t ht
    rw [hQ] at he
    refine h4 e he hty t ?_
    unfold travGet at ht ⊢
    rw [← hT]
    exact ht
  · unfold boxSum carriedBoxes at h5 ⊢
    rw [hT, hA, hP]
    exact h5

theorem consInv_init (B : ℤ) : ConservationInv B (setMaxBoxes initialState B) := by
  refine ⟨rfl, by simp [setMaxBoxes, initialState], by simp [setMaxBoxes, initialState],
    ?_, ?_⟩
  · intro e he
    simp [setMaxBoxes, initialState] at he
  · unfold boxSum carriedBoxes setMaxBoxes initialState
    simp

theorem consInv_addStation {B : ℤ} {s : EngineState} (id : String) (x y : ℚ)
    (h : ConservationInv B s) : ConservationInv B (addProcessingStation s id x y) :=
  consInv_of_fields rfl rfl rfl rfl rfl h

theorem consInv_removeStation {B : ℤ} {s : EngineState} (id : String)
    (h : ConservationInv B s) : ConservationInv B (removeProcessingStation s id) :=
  consInv_of_fields rfl rfl rfl rfl rfl h

theorem consInv_updateStationLoc {B : ℤ} {s : EngineState} (id : String) (x y : ℚ)
    (h : ConservationInv B s) :
    ConservationInv B (updateProcessingStationLocation s id x y) := by
  unfold updateProcessingStationLocation
  split
  · exact h
  · exact consInv_of_fields rfl rfl rfl rfl rfl h

theorem consInv_updateLocations {B : ℤ} {s : EngineState} (locA locC : Point)
    (h : ConservationInv B s) : ConservationInv B (updateLocations s locA locC) :=
  consInv_of_fields rfl rfl rfl rfl rfl h

theorem consInv_setSpeed {B : ℤ} {s : EngineState} (v : ℚ)
    (h : ConservationInv B s) : ConservationInv B (setSimulationSpeed s v) :=
  consInv_of_fields rfl rfl rfl rfl rfl h

theorem consInv_start {B : ℤ} {s : EngineState} (h : ConservationInv B s) :
    ConservationInv B (startEngine s) := by
  unfold startEngine
  split
  · exact h
  · exact consInv_of_fields rfl rfl rfl rfl rfl h

theorem consInv_stop {B : ℤ} {s : EngineState} (h : ConservationInv B s) :
    ConservationInv B (stopEngine s) :=
  consInv_of_fields rfl rfl rfl rfl rfl h

theorem consInv_reset {B : ℤ} {s : EngineState} (h : ConservationInv B s) :
    ConservationInv B (resetEngine s) := by
  obtain ⟨h1, _, _, _, _⟩ := h
  refine ⟨h1, by simp [resetEngine], by simp [resetEngine], ?_, ?_⟩
  · intro e he
    simp [resetEngine] at he
  · unfold boxSum carriedBoxes resetEngine
    simp [h1]

/-- Scheduling an event whose type is not one of the two box-carrying kinds
and whose target is distinct from those of all queued traveler-directed
events preserves the invariant. -/
theorem consInv_scheduleEvent {B : ℤ} {s : EngineState} {d : ℚ} {ty : EventType}
    {ent : ℕ} {da : Option EventData}
    (hty : ty ≠ .travelerArriveAtStation ∧ ty ≠ .travelerFinishProcessing)
    (hfr : ∀ e ∈ s.eventQueue, evR (mkEvent s d ty ent da) e)
    (h : ConservationInv B s) :
    ConservationInv B (scheduleEvent s d ty ent da).2 := by
  obtain ⟨h1, h2, h3, h4, h5⟩ := h
  refine ⟨h1, h2, ?_, ?_, h5⟩
  · show (insertChron s.eventQueue (mkEvent s d ty ent da)).Pairwise evR
    exact (List.Perm.pairwise_iff (fun h => evR_symm h) (insertChron_perm _ _)).mpr
      (List.pairwise_cons.mpr ⟨hfr, h3⟩)
  · intro e' he' htyp t ht
    rcases mem_insertChron.mp
        (show e' ∈ insertChron s.eventQueue (mkEvent s d ty ent da) from he') with
      rfl | he'
    · rcases htyp with hh | hh
      · exact absurd hh hty.1
      · exact absurd hh hty.2
    · exact h4 e' he' htyp t ht

/-- Inserting a fresh idle traveler (no box, unused id, no pending events for
that id) preserves the invariant. -/
theorem consInv_set_fresh_traveler {B : ℤ} {s : EngineState} (nt : TravelerState)
    (hbox : nt.hasBox = false)
    (hfresh : travGet s nt.id = none)
    (hq : ∀ e ∈ s.eventQueue, e.entityId ≠ nt.id)
    (h : ConservationInv B s) :
    ConservationInv B { s with
        travelers := setBy TravelerState.id s.travelers nt } := by
  obtain ⟨h1, h2, h3, h4, h5⟩ := h
  have hset : setBy TravelerState.id s.travelers nt = s.travelers ++ [nt] :=
    setBy_of_getBy_none hfresh
  refine ⟨h1, nodup_map_key_setBy _ h2, h3, ?_, ?_⟩
  · intro e' he' hty t ht
    refine h4 e' he' hty t ?_
    unfold travGet at ht ⊢
    rwa [getBy_setBy_ne _ nt _ (hq e' he')] at ht
  · unfold boxSum carriedBoxes at h5 ⊢
    simp only [hset]
    simpa [hbox] using h5

theorem consInv_addTraveler {B : ℤ} {s : EngineState} {id : ℕ}
    (hfresh : travGet s id = none) (hq : ∀ e ∈ s.eventQueue, e.entityId ≠ id)
    (h : ConservationInv B s) : ConservationInv B (addTraveler s id) := by
  have hins := consInv_set_fresh_traveler
    { id := id, currentLocation := "A", stage := "idle",
      journeyStartTime := s.currentTime, currentSegmentStartTime := s.currentTime,
      x := s.locationA.x, y := s.locationA.y, isActive := true,
      targetStation := none, hasBox := false, boxesProcessed := 0 }
    rfl hfresh hq h
  unfold addTraveler
  simp only []
  split
  · refine consInv_scheduleEvent
      ⟨fun hh => EventType.noConfusion hh, fun hh => EventType.noConfusion hh⟩
      ?_ hins
    intro e he _ _ heq
    exact hq e he heq.symm
  · exact hins

/-- Consuming the head of the queue through `processEvent` preserves the
invariant. -/
theorem consInv_processEvent {B : ℤ} (dist : Point → Point → ℚ) {s : EngineState}
    {e : SimulationEvent} {rest : List SimulationEvent}
    (hq : s.eventQueue = e :: rest) (h : ConservationInv B s) :
    ConservationInv B (processEvent dist { s with eventQueue := rest } e) := by
  obtain ⟨h1, h2, h3, h4, h5⟩ := h
  rw [hq] at h3 h4
  have hD : (e :: rest).Pairwise evR := h3
  have hH : ∀ e' ∈ e :: rest,
      (e'.type = .travelerArriveAtStation ∨ e'.type = .travelerFinishProcessing) →
      ∀ t, travGet { s with eventQueue := rest } e'.entityId = some t →
        t.hasBox = true :=
    fun e' he' hty t ht => h4 e' he' hty t ht
  refine ⟨?_, ?_, ?_, ?_, ?_⟩
  · exact ((processEvent_const_fields dist _ e).2.2.2.2.2.2.2).trans h1
  · exact processEvent_travelers_nodup dist _ e h2
  · exact processEvent_queue_pairwise dist _ e hD
  · exact processEvent_hasBox_clause dist _ e hD hH
  · exact le_trans
      (processEvent_boxSum_le dist _ e h2 (hH e (List.mem_cons_self _ _))) h5

theorem drainAux_consInv {B : ℤ} (dist : Point → Point → ℚ) (fuel : ℕ) :
    ∀ s : EngineState, ConservationInv B s →
      ConservationInv B (drainAux dist fuel s).1 := by
  induction fuel with
  | zero => exact fun s h => h
  | succ n ih =>
      intro s h
      unfold drainAux
      split
      · exact h
      next e rest hq =>
        split
        · simp only []
          exact ih _ (consInv_processEvent dist hq h)
        · exact h

theorem step_consInv {B : ℤ} (dist : Point → Point → ℚ) {s : EngineState}
    (h : ConservationInv B s) : ConservationInv B (step dist s) := by
  unfold step
  split
  · exact h
  · simp only []
    split
    · exact consInv_of_fields rfl rfl rfl rfl rfl (drainAux_consInv dist _ s h)
    · exact drainAux_consInv dist _ s h

/-- The conservation invariant holds in every state of a conservation run. -/
theorem reachableRun_consInv {B : ℤ} {dist : Point → Point → ℚ} {s : EngineState}
    (h : ReachableRun dist B s) : ConservationInv B s := by
  induction h with
  | init => exact consInv_init B
  | addStation id x y _ ih => exact consInv_addStation id x y ih
  | removeStation id _ ih => exact consInv_removeStation id ih
  | updateStationLoc id x y _ ih => exact consInv_updateStationLoc id x y ih
  | updateLocs locA locC _ ih => exact consInv_updateLocations locA locC ih
  | addTrav id hfresh hq _ ih => exact consInv_addTraveler hfresh hq ih
  | startR _ ih => exact consInv_start ih
  | stopR _ ih => exact consInv_stop ih
  | setSpeed v _ ih => exact consInv_setSpeed v ih
  | resetR _ ih => exact consInv_reset ih
  | stepR _ ih => exact step_consInv dist ih

theorem reachableRun_stepIter {dist : Point → Point → ℚ} {B : ℤ} {s : EngineState}
    (h : ReachableRun dist B s) (n : ℕ) :
    ReachableRun dist B (stepIter dist s n) := by
  induction n with
  | zero => exact h
  | succ n ih => exact ReachableRun.stepR ih

/-! ## The drain loop of `step()` -/

theorem processEvent_queue_sorted (dist : Point → Point → ℚ) (s : EngineState)
    (e : SimulationEvent) (hs : List.Sorted timeLE s.eventQueue) :
    List.Sorted timeLE (processEvent dist s e).eventQueue := by
  unfold processEvent checkSimulationComplete
  repeat' (first | split | simp only [])
  all_goals
    first
    | exact hs
    | exact insertChron_sorted _ _ hs

theorem drainAux_const (dist : Point → Point → ℚ) (fuel : ℕ) :
    ∀ s : EngineState,
      (drainAux dist fuel s).1.currentTime = s.currentTime ∧
      (drainAux dist fuel s).1.simulationSpeed = s.simulationSpeed ∧
      (drainAux dist fuel s).1.collectionDuration = s.collectionDuration ∧
      (drainAux dist fuel s).1.processingDuration = s.processingDuration := by
  induction fuel with
  | zero => exact fun s => ⟨rfl, rfl, rfl, rfl⟩
  | succ n ih =>
      intro s
      unfold drainAux
      split
      · exact ⟨rfl, rfl, rfl, rfl⟩
      next e rest hq =>
        split
        · simp only []
          obtain ⟨c1, c2, c3, c4⟩ := ih (processEvent dist { s with eventQueue := rest } e)
          have p := processEvent_const_fields dist { s with eventQueue := rest } e
          exact ⟨c1.trans p.1, c2.trans p.2.1, c3.trans p.2.2.1, c4.trans p.2.2.2.1⟩
        · exact ⟨rfl, rfl, rfl, rfl⟩

/-- Every event the drain loop processes was due: its time is at most the
(unchanging) virtual time of the tick. -/
theorem drainAux_trace_le (dist : Point → Point → ℚ) (fuel : ℕ) :
    ∀ s : EngineState, ∀ e ∈ (drainAux dist fuel s).2, e.time ≤ s.currentTime := by
  induction fuel with
  | zero => intro s e he; exact absurd he (List.not_mem_nil e)
  | succ n ih =>
      intro s e' he
      unfold drainAux at he
      split at he
      · exact absurd he (List.not_mem_nil e')
      next e rest hq =>
        split at he
        next hdue =>
          simp only [] at he
          rcases List.mem_cons.mp he with rfl | he
          · exact hdue
          · have hrec := ih (processEvent dist { s with eventQueue := rest } e) e' he
            rwa [(processEvent_const_fields dist _ e).1] at hrec
        next hdue => exact absurd he (List.not_mem_nil e')

/-- With `dueCount` fuel the drain loop is complete: in the resulting state
every queued event is strictly in the future.  Needs the chronological
sortedness of the queue (the loop stops at the first non-due head) and
positive service durations (every event a handler schedules is then strictly
in the future, so the due-event count strictly decreases). -/
theorem drainAux_drained (dist : Point → Point → ℚ) (fuel : ℕ) :
    ∀ s : EngineState, dueCount s ≤ fuel →
      0 < s.collectionDuration → 0 < s.processingDuration →
      List.Sorted timeLE s.eventQueue →
      ∀ e ∈ (drainAux dist fuel s).1.eventQueue, s.currentTime < e.time := by
  induction fuel with
  | zero =>
      intro s hf hc hp hs e he
      by_contra hlt
      push_neg at hlt
      have hmem : e ∈ s.eventQueue.filter (fun e => decide (e.time ≤ s.currentTime)) :=
        List.mem_filter.mpr ⟨he, by simpa using hlt⟩
      have h0 : dueCount s = 0 := Nat.le_zero.mp hf
      unfold dueCount at h0
      rw [List.length_eq_zero] at h0
      rw [h0] at hmem
      exact absurd hmem (List.not_mem_nil e)
  | succ n ih =>
      intro s hf hc hp hs e' he
      unfold drainAux at he
      split at he
      next hq =>
        rw [hq] at he
        exact absurd he (List.not_mem_nil e')
      next e rest hq =>
        split at he
        next hdue =>
          simp only [] at he
          have hconst := processEvent_const_fields dist { s with eventQueue := rest } e
          have hfuel : dueCount (processEvent dist { s with eventQueue := rest } e) ≤ n := by
            obtain ⟨evs, hperm, hfut⟩ :=
              processEvent_queue_perm dist { s with eventQueue := rest } e hc hp
            have hcnt : dueCount (processEvent dist { s with eventQueue := rest } e)
                = ((evs ++ rest).countP
                    (fun ev => decide (ev.time ≤ s.currentTime))) := by
              unfold dueCount
              rw [← List.countP_eq_length_filter, hconst.1]
              exact hperm.countP_eq _
            have hzero : evs.countP (fun ev => decide (ev.time ≤ s.currentTime)) = 0 := by
              rw [List.countP_eq_zero]
              intro ev hev
              simpa using not_le.mpr (hfut ev hev)
            have hdc : dueCount s
                = 1 + rest.countP (fun ev => decide (ev.time ≤ s.currentTime)) := by
              unfold dueCount
              rw [← List.countP_eq_length_filter, hq, List.countP_cons]
              simp [hdue]
              omega
            rw [hcnt, List.countP_append, hzero]
            omega
          have hrec := ih (processEvent dist { s with eventQueue := rest } e) hfuel
            (by rw [hconst.2.2.1]; exact hc)
            (by rw [hconst.2.2.2.1]; exact hp)
            (processEvent_queue_sorted dist _ e
              (by rw [hq] at hs; exact hs.of_cons))
            e' he
          rwa [hconst.1] at hrec
        next hdue =>
          push_neg at hdue
          rw [hq] at he hs
          rcases List.mem_cons.mp he with rfl | he'
          · exact hdue
          · exact lt_of_lt_of_le hdue (List.rel_of_sorted_cons hs e' he')

/-! ## Station occupancy -/

theorem mem_setBy {α κ : Type} [BEq κ] {key : α → κ} {l : List α} {a a' : α}
    (h : a' ∈ setBy key l a) : a' = a ∨ a' ∈ l := by
  unfold setBy at h
  split at h
  · rcases List.mem_map.mp h with ⟨b, hb, hba⟩
    by_cases hk : (key b == key a) = true
    · rw [if_pos hk] at hba
      exact Or.inl hba.symm
    · rw [if_neg hk] at hba
      exact Or.inr (hba ▸ hb)
  · rcases List.mem_append.mp h with hb | hb
    · exact Or.inr hb
    · exact Or.inl (List.mem_singleton.mp hb)

theorem getBy_mem {α κ : Type} [BEq κ] {key : α → κ} {l : List α} {k : κ} {u : α}
    (h : getBy key l k = some u) : u ∈ l :=
  List.mem_of_find?_eq_some h

/-- `claimStation` preserves unique station ids and per-station occupancy:
it only ever converts an `available` station (which by `occInv` has no
occupant) to `claimed`. -/
theorem claimStation_inv {stations : List ProcessingStation} {sid : String}
    {tid : ℕ} (hN : (stations.map ProcessingStation.id).Nodup)
    (hI : ∀ st ∈ stations, occInv st) :
    ((claimStation stations sid tid).2.map ProcessingStation.id).Nodup ∧
    ∀ st ∈ (claimStation stations sid tid).2, occInv st := by
  unfold claimStation
  split
  · exact ⟨hN, hI⟩
  next station hget =>
    split
    · exact ⟨hN, hI⟩
    next hav =>
      have hst : station.state = .available := not_not.mp hav
      refine ⟨nodup_map_key_setBy _ hN, ?_⟩
      intro st hmem
      rcases mem_setBy hmem with rfl | hmem'
      · exact ⟨fun hh => StationState.noConfusion hh,
          fun _ => ((hI station (getBy_mem hget)).1 hst).2,
          fun hh => StationState.noConfusion hh⟩
      · exact hI st hmem'

/-- `processEvent` preserves the station map invariant: the only mutations
are a successful claim (`available` → `claimed`), the arrival conversion
(`claimed` by the arriving traveler → `active` occupied by that claimant)
and the release on finish (→ `available`, claimant and occupant cleared). -/
theorem processEvent_stationsInv (dist : Point → Point → ℚ) (s : EngineState)
    (e : SimulationEvent) (h : StationsInv s) :
    StationsInv (processEvent dist s e) := by
  obtain ⟨hN, hI⟩ := h
  unfold processEvent checkSimulationComplete
  repeat' (first | split | simp only [])
  all_goals
    first
    | exact ⟨hN, hI⟩
    | exact claimStation_inv hN hI
    | -- release on finish: the station becomes available with no claimant
      -- and no occupant
      (refine ⟨nodup_map_key_setBy _ hN, ?_⟩
       intro st hmem
       rcases mem_setBy hmem with rfl | hmem'
       · exact ⟨fun _ => ⟨rfl, rfl⟩, fun _ => rfl,
           fun hh => StationState.noConfusion hh⟩
       · exact hI st hmem')
    | -- arrival conversion: the guard guarantees the claimant is the
      -- arriving traveler, who becomes the occupant
      (refine ⟨nodup_map_key_setBy _ hN, ?_⟩
       intro st hmem
       rcases mem_setBy hmem with rfl | hmem'
       · refine ⟨fun hh => StationState.noConfusion hh,
           fun hh => StationState.noConfusion hh, fun _ => ?_⟩
         have hg := not_not.mp (show ¬ _ ≠ _ by assumption)
         simp only []
         rw [hg]
         exact ⟨Option.some_ne_none _, rfl⟩
       · exact hI st hmem')

theorem stationsInv_initial : StationsInv initialState := by
  refine ⟨by simp [initialState], ?_⟩
  intro st hst
  simp [initialState] at hst

theorem stationsInv_addStation {s : EngineState} (id : String) (x y : ℚ)
    (h : StationsInv s) : StationsInv (addProcessingStation s id x y) := by
  obtain ⟨hN, hI⟩ := h
  refine ⟨nodup_map_key_setBy _ hN, ?_⟩
  intro st hmem
  rcases mem_setBy hmem with rfl | hmem'
  · exact ⟨fun _ => ⟨rfl, rfl⟩, fun hh => StationState.noConfusion hh,
      fun hh => StationState.noConfusion hh⟩
  · exact hI st hmem'

theorem stationsInv_removeStation {s : EngineState} (id : String)
    (h : StationsInv s) : StationsInv (removeProcessingStation s id) := by
  obtain ⟨hN, hI⟩ := h
  refine ⟨nodup_map_key_delBy _ hN, ?_⟩
  intro st hmem
  exact hI st (List.mem_filter.mp hmem).1

theorem stationsInv_updateStationLoc {s : EngineState} (id : String) (x y : ℚ)
    (h : StationsInv s) : StationsInv (updateProcessingStationLocation s id x y) := by
  obtain ⟨hN, hI⟩ := h
  unfold updateProcessingStationLocation
  split
  · exact ⟨hN, hI⟩
  next station hget =>
    refine ⟨nodup_map_key_setBy _ hN, ?_⟩
    intro st hmem
    rcases mem_setBy hmem with rfl | hmem'
    · exact hI station (getBy_mem hget)
    · exact hI st hmem'

theorem stationsInv_reset {s : EngineState} (h : StationsInv s) :
    StationsInv (resetEngine s) := by
  obtain ⟨hN, hI⟩ := h
  constructor
  · show ((s.processingStations.map _).map ProcessingStation.id).Nodup
    rw [List.map_map]
    exact hN
  · intro st hmem
    rcases List.mem_map.mp hmem with ⟨st0, _, rfl⟩
    exact ⟨fun _ => ⟨rfl, rfl⟩, fun _ => rfl, fun hh => StationState.noConfusion hh⟩

theorem drainAux_stationsInv (dist : Point → Point → ℚ) (fuel : ℕ) :
    ∀ s : EngineState, StationsInv s → StationsInv (drainAux dist fuel s).1 := by
  induction fuel with
  | zero => exact fun s h => h
  | succ n ih =>
      intro s h
      unfold drainAux
      split
      · exact h
      next e rest hq =>
        split
        · simp only []
          exact ih _ (processEvent_stationsInv dist { s with eventQueue := rest } e h)
        · exact h

theorem step_stationsInv (dist : Point → Point → ℚ) {s : EngineState}
    (h : StationsInv s) : StationsInv (step dist s) := by
  unfold step
  split
  · exact h
  · simp only []
    split
    · exact drainAux_stationsInv dist _ s h
    · exact drainAux_stationsInv dist _ s h

/-- The station occupancy invariant holds in every reachable state. -/
theorem reachable_stationsInv {dist : Point → Point → ℚ} {s : EngineState}
    (h : Reachable dist s) : StationsInv s := by
  induction h with
  | init => exact stationsInv_initial
  | setMax count _ ih => exact ih
  | addStation id x y _ ih => exact stationsInv_addStation id x y ih
  | removeStation id _ ih => exact stationsInv_removeStation id ih
  | updateStationLoc id x y _ ih => exact stationsInv_updateStationLoc id x y ih
  | updateLocs locA locC _ ih => exact ih
  | addTrav id _ ih =>
      unfold addTraveler
      simp only []
      split
      · exact ih
      · exact ih
  | startR _ ih =>
      unfold startEngine
      split
      · exact ih
      · exact ih
  | stopR _ ih => exact ih
  | setSpeed v _ ih => exact ih
  | resetR _ ih => exact stationsInv_reset ih
  | stepR _ ih => exact step_stationsInv dist ih

theorem getBy_setBy_cases {α κ : Type} [BEq κ] [LawfulBEq κ] {key : α → κ}
    {l : List α} {a u : α} {k : κ}
    (h : getBy key (setBy key l a) k = some u) :
    (key a = k ∧ u = a) ∨ (¬ key a = k ∧ getBy key l k = some u) := by
  by_cases hk : key a = k
  · left
    refine ⟨hk, ?_⟩
    rw [← hk] at h
    have h2 := Eq.trans (getBy_setBy_self l a).symm h
    exact ((Option.some.injEq _ _).mp h2).symm
  · right
    exact ⟨hk, by rwa [getBy_setBy_ne _ _ _ (fun hh => hk hh.symm)] at h⟩

theorem claimed_unchanged {sts : List ProcessingStation} {st : ProcessingStation}
    (hN : (sts.map ProcessingStation.id).Nodup) (hmem : st ∈ sts) :
    ∀ st', getBy ProcessingStation.id sts (ProcessingStation.id st) = some st' →
      st' = st := by
  intro st' h
  rw [getBy_of_mem_nodup hN hmem] at h
  exact ((Option.some.injEq _ _).mp h).symm

theorem claimed_case_id {sts : List ProcessingStation} {st : ProcessingStation}
    (hN : (sts.map ProcessingStation.id).Nodup) (hmem : st ∈ sts)
    (hcl : st.state = .claimed) :
    ∀ st', getBy ProcessingStation.id sts (ProcessingStation.id st) = some st' →
      claimedNext st st' := by
  intro st' h
  obtain rfl := claimed_unchanged hN hmem st' h
  exact Or.inl ⟨hcl, rfl⟩

/-- A claim attempt never touches a `claimed` station (it only rewrites an
`available` one). -/
theorem claimStation_claimed_preserved {stations : List ProcessingStation}
    {sid : String} {tid : ℕ} {st : ProcessingStation}
    (hN : (stations.map ProcessingStation.id).Nodup) (hmem : st ∈ stations)
    (hcl : st.state = .claimed) :
    getBy ProcessingStation.id (claimStation stations sid tid).2
        (ProcessingStation.id st)
      = getBy ProcessingStation.id stations (ProcessingStation.id st) := by
  unfold claimStation
  split
  · rfl
  next station hget =>
    split
    · rfl
    next hav =>
      have hav' : station.state = .available := not_not.mp hav
      apply getBy_setBy_ne
      intro hh
      have hk : ProcessingStation.id st = ProcessingStation.id station := hh
      have h1 : getBy ProcessingStation.id stations (ProcessingStation.id st)
          = some st := getBy_of_mem_nodup hN hmem
      have h2 : getBy ProcessingStation.id stations (ProcessingStation.id station)
          = some station := getBy_of_mem_nodup hN (getBy_mem hget)
      rw [hk] at h1
      obtain rfl := (Option.some.injEq _ _).mp (h1.symm.trans h2)
      exact StationState.noConfusion (hcl.symm.trans hav')

theorem claimed_transition_arrive {stations : List ProcessingStation}
    {stationId : String} {arrivalStation : ProcessingStation} {ent : ℕ}
    {st : ProcessingStation}
    (hN : (stations.map ProcessingStation.id).Nodup)
    (hget : stGet stations stationId = some arrivalStation)
    (hg : arrivalStation.claimedByTraveler = some ent)
    (hmem : st ∈ stations) (hcl : st.state = .claimed) :
    ∀ st', getBy ProcessingStation.id
        (setBy ProcessingStation.id stations
          { arrivalStation with
              state := .active,
              currentProcessingTraveler := some ent })
        (ProcessingStation.id st) = some st' →
      claimedNext st st' := by
  intro st' hst'
  rcases getBy_setBy_cases hst' with ⟨hk, rfl⟩ | ⟨hk, hst''⟩
  · have hk' : ProcessingStation.id arrivalStation = ProcessingStation.id st := hk
    have h1 : getBy ProcessingStation.id stations (ProcessingStation.id st)
        = some st := getBy_of_mem_nodup hN hmem
    have h2 : getBy ProcessingStation.id stations
        (ProcessingStation.id arrivalStation) = some arrivalStation :=
      getBy_of_mem_nodup hN (getBy_mem hget)
    rw [hk'] at h2
    obtain rfl := (Option.some.injEq _ _).mp (h1.symm.trans h2)
    exact Or.inr (Or.inl ⟨rfl, rfl, hg.symm⟩)
  · obtain rfl := claimed_unchanged hN hmem st' hst''
    exact Or.inl ⟨hcl, rfl⟩

theorem claimed_transition_release {stations : List ProcessingStation}
    {ps : ProcessingStation} {st : ProcessingStation}
    (hN : (stations.map ProcessingStation.id).Nodup) (hmem : st ∈ stations)
    (hcl : st.state = .claimed) :
    ∀ st', getBy ProcessingStation.id
        (setBy ProcessingStation.id stations
          { ps with
              state := .available,
              currentProcessingTraveler := none,
              claimedByTraveler := none })
        (ProcessingStation.id st) = some st' →
      claimedNext st st' := by
  intro st' hst'
  rcases getBy_setBy_cases hst' with ⟨hk, rfl⟩ | ⟨hk, hst''⟩
  · exact Or.inr (Or.inr rfl)
  · obtain rfl := claimed_unchanged hN hmem st' hst''
    exact Or.inl ⟨hcl, rfl⟩

/-- A `claimed` station keeps its claimant, verbatim, until it either turns
`active` — occupied by exactly that claimant — or is released back to
`available`. -/
theorem processEvent_claimed_transition (dist : Point → Point → ℚ)
    (s : EngineState) (e : SimulationEvent)
    (hN : (s.processingStations.map ProcessingStation.id).Nodup)
    {st : ProcessingStation} (hmem : st ∈ s.processingStations)
    (hcl : st.state = .claimed) :
    ∀ st', getBy ProcessingStation.id
        (processEvent dist s e).processingStations (ProcessingStation.id st)
        = some st' → claimedNext st st' := by
  unfold processEvent checkSimulationComplete
  repeat' (first | split | simp only [])
  all_goals
    first
    | exact claimed_case_id hN hmem hcl
    | (intro st' hst'
       try simp only [scheduleEvent_stations] at hst'
       rw [claimStation_claimed_preserved hN hmem hcl] at hst'
       obtain rfl := claimed_unchanged hN hmem st' hst'
       exact Or.inl ⟨hcl, rfl⟩)
    | (have hget := (show stGet _ _ = some _ by assumption)
       have hg := not_not.mp (show ¬ _ ≠ _ by assumption)
       exact claimed_transition_arrive hN hget hg hmem hcl)
    | exact claimed_transition_release hN hmem hcl

/-- **C3**.  Single occupancy: in every reachable state the station map has
unique station ids and every station satisfies `occInv` — an `available`
station has neither claimant nor occupant, a `claimed` station has a
claimant but no occupant yet, and an `active` station is occupied by exactly
its claimant — so at most one traveler holds claimed-or-active status on any
station.  Moreover a `claimed` station records exactly its claimant until
the next event-handler execution converts it to `active` (occupied by that
same claimant) or releases it back to `available`. -/
theorem station_single_occupancy (dist : Point → Point → ℚ) (s : EngineState)
    (h : Reachable dist s) :
    StationsInv s ∧
    ∀ e : SimulationEvent, ∀ st ∈ s.processingStations, st.state = .claimed →
      ∀ st', getBy ProcessingStation.id
          (processEvent dist s e).processingStations (ProcessingStation.id st)
          = some st' → claimedNext st st' :=
  ⟨reachable_stationsInv h, fun e st hmem hcl =>
    processEvent_claimed_transition dist s e (reachable_stationsInv h).1 hmem hcl⟩

/-- Witness for `station_single_occupancy`: the engine after one station has
been added is reachable and satisfies the occupancy contract. -/
theorem station_single_occupancy_witness :
    StationsInv (addProcessingStation initialState "S1" 300 300) ∧
    ∀ e : SimulationEvent,
      ∀ st ∈ (addProcessingStation initialState "S1" 300 300).processingStations,
        st.state = .claimed →
        ∀ st', getBy ProcessingStation.id
            (processEvent dist0 (addProcessingStation initialState "S1" 300 300)
              e).processingStations (ProcessingStation.id st)
            = some st' → claimedNext st st' :=
  station_single_occupancy dist0 (addProcessingStation initialState "S1" 300 300)
    (Reachable.addStation "S1" 300 300 Reachable.init)

/-- The accumulator of `selectTargetStation`'s fold only ever holds the id of
an `available` station of the scanned list. -/
theorem selectTarget_aux (l0 : List ProcessingStation) :
    ∀ (l : List ProcessingStation) (acc : Option String × Option ℚ),
      (∀ st ∈ l, st ∈ l0) →
      (∀ sid, acc.1 = some sid →
        ∃ st ∈ l0, ProcessingStation.id st = sid ∧ st.state = .available) →
      ∀ sid, (l.foldl
        (fun best station =>
          if station.state ≠ .available then best
          else
            let load : ℚ := 0
            match best.2 with
            | none => (some station.id, some load)
            | some minLoad =>
                if load < minLoad then (some station.id, some load) else best)
        acc).1 = some sid →
        ∃ st ∈ l0, ProcessingStation.id st = sid ∧ st.state = .available := by
  intro l
  induction l with
  | nil => exact fun acc hsub hacc sid h => hacc sid h
  | cons a l ih =>
      intro acc hsub hacc sid h
      rw [List.foldl_cons] at h
      refine ih _ (fun st hst => hsub st (List.mem_cons_of_mem a hst)) ?_ sid h
      intro sid' hacc'
      by_cases hav : a.state = .available
      · rw [if_neg (by simp [hav])] at hacc'
        simp only [] at hacc'
        obtain ⟨a1, a2⟩ := acc
        cases a2 with
        | none =>
            simp only [] at hacc'
            exact ⟨a, hsub a (List.mem_cons_self a l),
              (Option.some.injEq _ _).mp hacc', hav⟩
        | some m =>
            simp only [] at hacc'
            split at hacc'
            · exact ⟨a, hsub a (List.mem_cons_self a l),
                (Option.some.injEq _ _).mp hacc', hav⟩
            · exact hacc sid' hacc'
      · rw [if_pos hav] at hacc'
        exact hacc sid' hacc'

/-- `selectTargetStation` returns only ids of `available` stations. -/
theorem selectTargetStation_available {stations : List ProcessingStation}
    {sid : String} (h : selectTargetStation stations = some sid) :
    ∃ st ∈ stations, ProcessingStation.id st = sid ∧ st.state = .available := by
  unfold selectTargetStation at h
  split at h
  · exact absurd h (by simp)
  · exact selectTarget_aux stations stations ((none : Option String), (none : Option ℚ))
      (fun st hst => hst) (fun sid' hh => absurd hh (by simp)) sid h

/-- **C9**.  The failed-claim recovery branch of the `TRAVELER_COLLECT_BOX`
handler is dead code in reachable states: `selectTargetStation` returns only
stations whose state is `available` (and station ids are unique), and
`claimStation` is invoked synchronously on the same station map, so whenever
`selectTargetStation` returns a station id the immediately following
`claimStation` call on it succeeds, for any traveler. -/
theorem failed_claim_unreachable (dist : Point → Point → ℚ) (s : EngineState)
    (h : Reachable dist s) (sid : String) (tid : ℕ)
    (hsel : selectTargetStation s.processingStations = some sid) :
    (claimStation s.processingStations sid tid).1 = true := by
  obtain ⟨st, hmem, hid, hav⟩ := selectTargetStation_available hsel
  have hN := (reachable_stationsInv h).1
  have hget : getBy ProcessingStation.id s.processingStations
      (ProcessingStation.id st) = some st := getBy_of_mem_nodup hN hmem
  rw [hid] at hget
  unfold claimStation stGet
  rw [hget]
  simp [hav]

/-- Witness for `failed_claim_unreachable`: with the single available station
`S1`, selection returns `S1` and the claim for traveler 1 succeeds. -/
theorem failed_claim_unreachable_witness :
    selectTargetStation
        (addProcessingStation initialState "S1" 300 300).processingStations
      = some "S1" ∧
    (claimStation
        (addProcessingStation initialState "S1" 300 300).processingStations
        "S1" 1).1 = true :=
  ⟨by decide,
    failed_claim_unreachable dist0 (addProcessingStation initialState "S1" 300 300)
      (Reachable.addStation "S1" 300 300 Reachable.init) "S1" 1 (by decide)⟩

/-- **C7**.  Temporal contract of `step()` while running: the drain loop
processes only due events (time ≤ the tick's virtual time) and — since it
consumes the head of the chronologically sorted queue each iteration — it
processes them in queue order; after the drain no due event remains and the
virtual time is still unchanged; only then does `step()` advance time by
`50 * simulationSpeed` (unless a drained `SIMULATION_COMPLETE` stopped the
engine); hence for every nonnegative speed multiplier virtual time is
non-decreasing across ticks. -/
theorem step_temporal_contract (dist : Point → Point → ℚ) (s : EngineState)
    (hrun : s.isRunning = true)
    (hc : 0 < s.collectionDuration) (hp : 0 < s.processingDuration)
    (hs : List.Sorted timeLE s.eventQueue) :
    (∀ e ∈ (drainAux dist (dueCount s) s).2, e.time ≤ s.currentTime) ∧
    (∀ e ∈ (drainAux dist (dueCount s) s).1.eventQueue, s.currentTime < e.time) ∧
    (drainAux dist (dueCount s) s).1.currentTime = s.currentTime ∧
    (step dist s =
      if (drainAux dist (dueCount s) s).1.isRunning = true then
        { (drainAux dist (dueCount s) s).1 with
            currentTime := s.currentTime + 50 * s.simulationSpeed }
      else (drainAux dist (dueCount s) s).1) ∧
    (0 ≤ s.simulationSpeed → s.currentTime ≤ (step dist s).currentTime) := by
  have hconst := drainAux_const dist (dueCount s) s
  have hstep : step dist s =
      if (drainAux dist (dueCount s) s).1.isRunning = true then
        { (drainAux dist (dueCount s) s).1 with
            currentTime := s.currentTime + 50 * s.simulationSpeed }
      else (drainAux dist (dueCount s) s).1 := by
    unfold step
    rw [if_neg (by simp [hrun])]
    simp only []
    rw [hconst.1, hconst.2.1]
  refine ⟨drainAux_trace_le dist (dueCount s) s,
    drainAux_drained dist (dueCount s) s (le_refl _) hc hp hs,
    hconst.1, hstep, ?_⟩
  intro hsp
  rw [hstep]
  split
  · show s.currentTime ≤ s.currentTime + 50 * s.simulationSpeed
    have h50 : 0 ≤ 50 * s.simulationSpeed := mul_nonneg (by norm_num) hsp
    linarith
  · rw [hconst.1]

/-- Witness for `step_temporal_contract` at the freshly started engine. -/
theorem step_temporal_contract_witness :
    (∀ e ∈ (drainAux dist0 (dueCount (startEngine initialState))
        (startEngine initialState)).2,
      e.time ≤ (startEngine initialState).currentTime) ∧
    (∀ e ∈ (drainAux dist0 (dueCount (startEngine initialState))
        (startEngine initialState)).1.eventQueue,
      (startEngine initialState).currentTime < e.time) ∧
    (drainAux dist0 (dueCount (startEngine initialState))
        (startEngine initialState)).1.currentTime
      = (startEngine initialState).currentTime ∧
    (step dist0 (startEngine initialState) =
      if (drainAux dist0 (dueCount (startEngine initialState))
          (startEngine initialState)).1.isRunning = true then
        { (drainAux dist0 (dueCount (startEngine initialState))
            (startEngine initialState)).1 with
            currentTime := (startEngine initialState).currentTime
              + 50 * (startEngine initialState).simulationSpeed }
      else (drainAux dist0 (dueCount (startEngine initialState))
        (startEngine initialState)).1) ∧
    (0 ≤ (startEngine initialState).simulationSpeed →
      (startEngine initialState).currentTime
        ≤ (step dist0 (startEngine initialState)).currentTime) :=
  step_temporal_contract dist0 (startEngine initialState) rfl
    (show (0 : ℚ) < 1000 by norm_num) (show (0 : ℚ) < 2000 by norm_num)
    List.sorted_nil

/-! ## Progress bounds for the termination claim -/

theorem processEvent_processed_mono (dist : Point → Point → ℚ) (s : EngineState)
    (e : SimulationEvent) :
    s.totalBoxesProcessed ≤ (processEvent dist s e).totalBoxesProcessed := by
  unfold processEvent checkSimulationComplete
  repeat' (first | split | simp only [])
  all_goals
    first
    | exact le_refl _
    | exact le_add_of_nonneg_right zero_le_one

theorem drainAux_processed_mono (dist : Point → Point → ℚ) (fuel : ℕ) :
    ∀ s : EngineState,
      s.totalBoxesProcessed ≤ (drainAux dist fuel s).1.totalBoxesProcessed := by
  induction fuel with
  | zero => exact fun s => le_refl _
  | succ n ih =>
      intro s
      unfold drainAux
      split
      · exact le_refl _
      next e rest hq =>
        split
        · simp only []
          exact le_trans
            (processEvent_processed_mono dist { s with eventQueue := rest } e)
            (ih (processEvent dist { s with eventQueue := rest } e))
        · exact le_refl _

theorem step_processed_mono (dist : Point → Point → ℚ) (s : EngineState) :
    s.totalBoxesProcessed ≤ (step dist s).totalBoxesProcessed := by
  unfold step
  split
  · exact le_refl _
  · simp only []
    split
    · exact drainAux_processed_mono dist _ s
    · exact drainAux_processed_mono dist _ s

theorem stepIter_processed_mono (dist : Point → Point → ℚ) (s : EngineState)
    (n : ℕ) : s.totalBoxesProcessed ≤ (stepIter dist s n).totalBoxesProcessed := by
  induction n with
  | zero => exact le_refl _
  | succ n ih => exact le_trans ih (step_processed_mono dist (stepIter dist s n))

theorem stepIter_add (dist : Point → Point → ℚ) (s : EngineState) (m k : ℕ) :
    stepIter dist s (m + k) = stepIter dist (stepIter dist s m) k := by
  induction k with
  | zero => rfl
  | succ k ih =>
      show step dist (stepIter dist s (m + k)) = _
      rw [ih]
      rfl

/-- With an empty event queue, `step()` can only advance time: the traveler
registry, the processed count and the (empty) queue are unchanged. -/
theorem step_stuck (dist : Point → Point → ℚ) {s : EngineState}
    (hq : s.eventQueue = []) :
    (step dist s).travelers = s.travelers ∧
    (step dist s).totalBoxesProcessed = s.totalBoxesProcessed ∧
    (step dist s).eventQueue = [] := by
  have h0 : dueCount s = 0 := by
    unfold dueCount
    rw [hq]
    rfl
  unfold step
  split
  · exact ⟨rfl, rfl, hq⟩
  · simp only [h0]
    split
    · exact ⟨rfl, rfl, hq⟩
    · exact ⟨rfl, rfl, hq⟩

theorem stepIter_stuck (dist : Point → Point → ℚ) {s : EngineState}
    (hq : s.eventQueue = []) (k : ℕ) :
    (stepIter dist s k).travelers = s.travelers ∧
    (stepIter dist s k).totalBoxesProcessed = s.totalBoxesProcessed ∧
    (stepIter dist s k).eventQueue = [] := by
  induction k with
  | zero => exact ⟨rfl, rfl, hq⟩
  | succ k ih =>
      obtain ⟨h1, h2, h3⟩ := ih
      obtain ⟨g1, g2, g3⟩ := step_stuck dist h3
      exact ⟨g1.trans h1, g2.trans h2, g3⟩

/-! ## Starvation of an idle traveler admitted with no boxes left -/

theorem processEvent_simComplete (dist : Point → Point → ℚ) (s : EngineState)
    (e : SimulationEvent) (h : e.type = .simulationComplete) :
    processEvent dist s e = { s with isRunning := false } := by
  obtain ⟨eid, tm, ty, ent, da⟩ := e
  simp only [] at h
  subst h
  rfl

/-- `processEvent` never rewrites registry entries of travelers other than
the consumed event's entity. -/
theorem processEvent_travGet_ne (dist : Point → Point → ℚ) (s : EngineState)
    (e : SimulationEvent) (i : ℕ) (hne : i ≠ e.entityId) :
    travGet (processEvent dist s e) i = travGet s i := by
  unfold processEvent checkSimulationComplete
  repeat' (first | split | simp only [])
  all_goals
    first
    | rfl
    | (have hid := travGet_id (show travGet s _ = some _ by assumption)
       show getBy TravelerState.id _ i = getBy TravelerState.id s.travelers i
       first
       | exact getBy_delBy_ne _ _ _ (fun hh => hne hh.symm)
       | (refine getBy_setBy_ne _ _ _ ?_
          exact fun hh => hne (hh.trans hid))
       | (refine (getBy_setBy_ne _ _ _ ?_).trans (getBy_setBy_ne _ _ _ ?_) <;>
          exact fun hh => hne (hh.trans hid)))

/-- Every event in the queue after `processEvent` was already queued, targets
the consumed event's entity, or is a terminal `SIMULATION_COMPLETE`. -/
theorem processEvent_queue_entity (dist : Point → Point → ℚ) (s : EngineState)
    (e : SimulationEvent) :
    ∀ ev ∈ (processEvent dist s e).eventQueue,
      ev ∈ s.eventQueue ∨ ev.entityId = e.entityId ∨
        ev.type = .simulationComplete := by
  unfold processEvent checkSimulationComplete
  repeat' (first | split | simp only [])
  all_goals
    first
    | exact fun ev hev => Or.inl hev
    | (intro ev hev
       rcases mem_insertChron.mp hev with rfl | hev
       · first
         | exact Or.inr (Or.inl rfl)
         | exact Or.inr (Or.inr rfl)
       · exact Or.inl hev)

theorem processEvent_idleInv (dist : Point → Point → ℚ) (s : EngineState)
    (e : SimulationEvent) (id : ℕ)
    (he : e.entityId ≠ id ∨ e.type = .simulationComplete)
    (h : IdleInv id s) : IdleInv id (processEvent dist s e) := by
  rcases he with hne | hsim
  · obtain ⟨⟨t, ht, hstage, hact⟩, hqueue⟩ := h
    refine ⟨⟨t, ?_, hstage, hact⟩, ?_⟩
    · rw [processEvent_travGet_ne dist s e id (fun hh => hne (hh.symm))]
      exact ht
    · intro ev hev
      rcases processEvent_queue_entity dist s e ev hev with hold | hent | hs
      · exact hqueue ev hold
      · exact Or.inl (fun hh => hne (hent.symm.trans hh))
      · exact Or.inr hs
  · rw [processEvent_simComplete dist s e hsim]
    exact h

theorem drainAux_idleInv (dist : Point → Point → ℚ) (fuel : ℕ) (id : ℕ) :
    ∀ s : EngineState, IdleInv id s → IdleInv id (drainAux dist fuel s).1 := by
  induction fuel with
  | zero => exact fun s h => h
  | succ n ih =>
      intro s h
      unfold drainAux
      split
      · exact h
      next e rest hq =>
        split
        · simp only []
          refine ih _ (processEvent_idleInv dist _ e id ?_ ⟨h.1, ?_⟩)
          · have := h.2 e (by rw [hq]; exact List.mem_cons_self e rest)
            exact this
          · intro ev hev
            exact h.2 ev (by rw [hq]; exact List.mem_cons_of_mem e hev)
        · exact h

theorem step_idleInv (dist : Point → Point → ℚ) (id : ℕ) {s : EngineState}
    (h : IdleInv id s) : IdleInv id (step dist s) := by
  unfold step
  split
  · exact h
  · simp only []
    split
    · exact drainAux_idleInv dist _ id s h
    · exact drainAux_idleInv dist _ id s h

theorem addTraveler_idleInv (dist : Point → Point → ℚ) (id id' : ℕ)
    (hne : id' ≠ id) {s : EngineState} (h : IdleInv id s) :
    IdleInv id (addTraveler s id') := by
  obtain ⟨⟨t, ht, hstage, hact⟩, hqueue⟩ := h
  have hreg : travGet (addTraveler s id') id = travGet s id := by
    unfold addTraveler
    simp only []
    split
    all_goals
      show getBy TravelerState.id _ id = getBy TravelerState.id s.travelers id
    all_goals
      exact getBy_setBy_ne _ _ _ (fun hh => hne hh.symm)
  refine ⟨⟨t, hreg.trans ht |>.symm.symm, hstage, hact⟩, ?_⟩
  intro ev hev
  unfold addTraveler at hev
  simp only [] at hev
  split at hev
  · rcases mem_insertChron.mp hev with rfl | hev'
    · exact Or.inl (fun hh => hne (by simpa using hh))
    · exact hqueue ev hev'
  · exact hqueue ev hev

/-- The invariant survives every admissible evolution step. -/
theorem simEvolution_idleInv (dist : Point → Point → ℚ) (id : ℕ)
    {s s' : EngineState} (h : SimEvolution dist id s s') (h0 : IdleInv id s) :
    IdleInv id s' := by
  induction h with
  | refl => exact h0
  | stepE _ ih => exact step_idleInv dist id ih
  | addTravE id' hne _ ih => exact addTraveler_idleInv dist id id' hne ih
  | addStationE sid x y _ ih => exact ih
  | removeStationE sid _ ih => exact ih
  | updateStationLocE sid x y _ ih =>
      obtain ⟨hreg, hqueue⟩ := ih
      unfold updateProcessingStationLocation
      split
      · exact ⟨hreg, hqueue⟩
      · exact ⟨hreg, hqueue⟩
  | updateLocsE locA locC _ ih => exact ih
  | startE _ ih =>
      unfold startEngine
      split
      · exact ih
      · exact ih
  | stopE _ ih => exact ih
  | setSpeedE v _ ih => exact ih
  | setMaxE count _ ih => exact ih

/-- **C10**.  A traveler admitted while `availableBoxes ≤ 0` is inserted into
the registry in stage `idle` with `isActive = true` and no start event
(the queue is unchanged); under every subsequent evolution that does not
reset the engine or re-admit the same id, it stays idle and active in the
registry forever, no queued event other than a terminal
`SIMULATION_COMPLETE` ever targets it, the registry is never empty, and
`checkSimulationComplete` never fires (global completion cannot trigger). -/
theorem idle_traveler_starves (dist : Point → Point → ℚ) (s : EngineState)
    (id : ℕ) (hbox : s.availableBoxes ≤ 0)
    (hq : ∀ e ∈ s.eventQueue, e.entityId ≠ id) :
    (addTraveler s id).eventQueue = s.eventQueue ∧
    ∀ s', SimEvolution dist id (addTraveler s id) s' →
      (∃ t, travGet s' id = some t ∧ t.stage = "idle" ∧ t.isActive = true) ∧
      s'.travelers ≠ [] ∧
      (∀ e ∈ s'.eventQueue, e.entityId ≠ id ∨ e.type = .simulationComplete) ∧
      checkSimulationComplete s' = s' := by
  have heq : addTraveler s id = { s with
      travelers := setBy TravelerState.id s.travelers
        { id := id, currentLocation := "A", stage := "idle",
          journeyStartTime := s.currentTime,
          currentSegmentStartTime := s.currentTime,
          x := s.locationA.x, y := s.locationA.y, isActive := true,
          targetStation := none, hasBox := false, boxesProcessed := 0 } } := by
    unfold addTraveler
    simp only []
    rw [if_neg (not_lt.mpr hbox)]
  have hbase : IdleInv id (addTraveler s id) := by
    rw [heq]
    refine ⟨⟨_, getBy_setBy_self _ _, rfl, rfl⟩, ?_⟩
    intro e he
    exact Or.inl (hq e he)
  refine ⟨by rw [heq], ?_⟩
  intro s' hev
  obtain ⟨⟨t, ht, hstage, hact⟩, hqueue⟩ := simEvolution_idleInv dist id hev hbase
  have hne : s'.travelers ≠ [] := List.ne_nil_of_mem (getBy_mem ht)
  have hcheck : checkSimulationComplete s' = s' := by
    unfold checkSimulationComplete
    rw [if_neg]
    intro hcond
    exact hne (List.length_eq_zero.mp hcond.2)
  exact ⟨⟨t, ht, hstage, hact⟩, hne, hqueue, hcheck⟩

/-- Witness for `idle_traveler_starves`: traveler 7 admitted to a fresh
engine configured with zero boxes. -/
theorem idle_traveler_starves_witness :
    (addTraveler (setMaxBoxes initialState 0) 7).eventQueue
      = (setMaxBoxes initialState 0).eventQueue ∧
    ∀ s', SimEvolution dist0 7 (addTraveler (setMaxBoxes initialState 0) 7) s' →
      (∃ t, travGet s' 7 = some t ∧ t.stage = "idle" ∧ t.isActive = true) ∧
      s'.travelers ≠ [] ∧
      (∀ e ∈ s'.eventQueue, e.entityId ≠ 7 ∨ e.type = .simulationComplete) ∧
      checkSimulationComplete s' = s' :=
  idle_traveler_starves dist0 (setMaxBoxes initialState 0) 7 (by decide)
    (fun e he => absurd he (List.not_mem_nil e))

/-! ## Position interpolation -/

theorem reachable_stepIter {dist : Point → Point → ℚ} {s : EngineState}
    (h : Reachable dist s) (n : ℕ) : Reachable dist (stepIter dist s n) := by
  induction n with
  | zero => exact h
  | succ n ih => exact Reachable.stepR ih

/-- **C4** (amended).  The interpolation the spec asserts holds exactly in
the cases where the renderer's re-derived segment start agrees with the
traveler's recorded coordinates and the renderer's branch matches the
destination the location names: (i) traveling to C on the outbound leg with
the recorded position at A; (ii) traveling to A with no recorded target
station and the recorded position at C; (iii) traveling to a station (with
a nonempty station id recorded and resolvable — an empty-string id is falsy
in JS and skips the renderer's branch — and the location not reading
`TRAVELING_TO_A` or `TRAVELING_TO_C`) with the recorded position at C.  In
each case `getTravelerStates`' rendered position equals the spec formula.
Outside these cases the renderer disagrees with the spec — see the
counterexample, where a traveler returning from a station to A is
interpolated from C toward the station instead. -/
theorem interpolation_amended (dist : Point → Point → ℚ) (s : EngineState)
    (t : TravelerState) :
    (t.currentLocation = "TRAVELING_TO_C" → t.stage ≠ "returningToC" →
      (⟨t.x, t.y⟩ : Point) = s.locationA →
      (⟨(renderTraveler dist s t).x, (renderTraveler dist s t).y⟩ : Point)
        = specInterpolatedPosition dist s t) ∧
    (t.currentLocation = "TRAVELING_TO_A" → t.targetStation = none →
      (⟨t.x, t.y⟩ : Point) = s.locationC →
      (⟨(renderTraveler dist s t).x, (renderTraveler dist s t).y⟩ : Point)
        = specInterpolatedPosition dist s t) ∧
    (∀ sid st, strStartsWith t.currentLocation "TRAVELING_TO_" = true →
      t.currentLocation ≠ "TRAVELING_TO_A" →
      t.currentLocation ≠ "TRAVELING_TO_C" →
      t.targetStation = some sid → sid ≠ "" →
      stGet s.processingStations sid = some st →
      (⟨t.x, t.y⟩ : Point) = s.locationC →
      (⟨(renderTraveler dist s t).x, (renderTraveler dist s t).y⟩ : Point)
        = specInterpolatedPosition dist s t) := by
  refine ⟨?_, ?_, ?_⟩
  · intro hloc hstage hrec
    have hx : t.x = s.locationA.x := congrArg Point.x hrec
    have hy : t.y = s.locationA.y := congrArg Point.y hrec
    unfold renderTraveler specInterpolatedPosition
    rw [hloc]
    simp only [hstage]
    simp [hx, hy]
  · intro hloc hts hrec
    have hx : t.x = s.locationC.x := congrArg Point.x hrec
    have hy : t.y = s.locationC.y := congrArg Point.y hrec
    unfold renderTraveler specInterpolatedPosition
    rw [hloc, hts]
    simp [truthyStr, hx, hy]
  · intro sid st hsw hlocA hlocC hts hsid hst hrec
    have hx : t.x = s.locationC.x := congrArg Point.x hrec
    have hy : t.y = s.locationC.y := congrArg Point.y hrec
    unfold renderTraveler specInterpolatedPosition
    rw [hts]
    simp [truthyStr, hsw, hsid, hlocA, hlocC, hst, hx, hy]

/-- Witness for `interpolation_amended`: a traveler freshly traveling from A
to C is rendered exactly at the spec's interpolated position. -/
theorem interpolation_amended_witness :
    (⟨(renderTraveler dist0 initialState interpWitnessTraveler).x,
      (renderTraveler dist0 initialState interpWitnessTraveler).y⟩ : Point)
      = specInterpolatedPosition dist0 initialState interpWitnessTraveler :=
  (interpolation_amended dist0 initialState interpWitnessTraveler).1 rfl
    (by decide) rfl

section ConcreteEvaluation

attribute [local semireducible] Rat.add Rat.sub Rat.mul Rat.inv

/-- The initialization sequence of the conservation counterexample is a
conservation run. -/
theorem consViolationStart_reachable : ReachableRun dist0 1 consViolationStart := by
  have h0 : ReachableRun dist0 1 (setMaxBoxes initialState 1) := ReachableRun.init
  have h1 : ReachableRun dist0 1 (addTraveler (setMaxBoxes initialState 1) 1) :=
    ReachableRun.addTrav 1 rfl (fun e he => absurd he (List.not_mem_nil e)) h0
  exact ReachableRun.startR h1

/-- **C1** (amended).  Box conservation holds only as an upper bound: in every
state reachable from initialization (`setMaxBoxes(B)`, then any sequence of
fresh-id `addTraveler` calls, station management, driver control and `step()`
ticks), `availableBoxes` plus the number of active travelers holding a box
plus `totalBoxesProcessed` is at most the initial box count `B`.  Exact
equality fails — see `box_conservation_violated`: the sum can drop when a
traveler is deleted on arrival at A while still carrying a box. -/
theorem box_conservation_upper_bound (dist : Point → Point → ℚ) (B : ℤ)
    (s : EngineState) (h : ReachableRun dist B s) : boxSum s ≤ B :=
  (reachableRun_consInv h).2.2.2.2

/-- Witness for `box_conservation_upper_bound`: the counterexample run's state
after 27 ticks is reachable and its conservation sum is at most 1. -/
theorem box_conservation_upper_bound_witness :
    boxSum consViolationState ≤ 1 :=
  box_conservation_upper_bound dist0 1 consViolationState
    (reachableRun_stepIter consViolationStart_reachable 27)

/-- **C1** counterexample.  One box, one traveler, no processing stations:
the traveler collects the box, finds no station, walks back to A still
holding it, and is deleted there, so after 27 ticks the conservation sum is
0, not the initial box count 1.  Hence the claim's equality
(`conservationClaim`) is false. -/
theorem box_conservation_violated :
    ReachableRun dist0 1 consViolationState ∧
      boxSum consViolationState = 0 ∧ ¬ conservationClaim := by
  have hreach : ReachableRun dist0 1 consViolationState :=
    reachableRun_stepIter consViolationStart_reachable 27
  have hsum : boxSum consViolationState = 0 := by decide
  refine ⟨hreach, hsum, fun hc => ?_⟩
  have h1 := hc dist0 1 consViolationState hreach
  rw [hsum] at h1
  exact absurd h1 (by norm_num)

/-- The stall configuration is stuck at tick 8: no travelers, empty queue,
one of the two boxes processed. -/
theorem stall_at_8 :
    (stallRun 8).travelers = [] ∧
    (stallRun 8).eventQueue = [] ∧
    (stallRun 8).totalBoxesProcessed = 1 := by
  decide

/-- The processed count of the stall configuration never exceeds 1: monotone
up to the stall point (tick 8), frozen afterwards (the queue is empty from
then on). -/
theorem stall_processed_le (n : ℕ) :
    (stallRun n).totalBoxesProcessed ≤ 1 := by
  rcases le_total n 8 with hn | hn
  · have hmono := stepIter_processed_mono dist0 (stallRun n) (8 - n)
    have heq : stepIter dist0 (stallRun n) (8 - n) = stallRun 8 := by
      show stepIter dist0 (stepIter dist0 stallStart n) (8 - n)
        = stepIter dist0 stallStart 8
      rw [← stepIter_add, Nat.add_sub_cancel' hn]
    rw [heq, stall_at_8.2.2] at hmono
    exact hmono
  · have heq : stallRun n = stepIter dist0 (stallRun 8) (n - 8) := by
      show stepIter dist0 stallStart n
        = stepIter dist0 (stepIter dist0 stallStart 8) (n - 8)
      rw [← stepIter_add, Nat.add_sub_cancel' hn]
    rw [heq, (stepIter_stuck dist0 stall_at_8.2.1 (n - 8)).2.1, stall_at_8.2.2]

/-- **C2** (amended).  Termination fails: the engine can reach a permanently
stuck state with `totalBoxesProcessed` strictly below the initial box count.
In the configuration with 2 boxes, one station, two travelers and speed
multiplier 100, both travelers collect a box at the same virtual instant,
the second finds the only station already claimed, carries its box back to
A and is deleted there: from tick 8 on the registry and the queue are empty
with only 1 of the 2 boxes processed, and the processed count never exceeds
1 at any tick. -/
theorem termination_stalls :
    (stallRun 8).travelers = [] ∧
    (stallRun 8).eventQueue = [] ∧
    (stallRun 8).totalBoxesProcessed = 1 ∧
    ∀ n, (stallRun n).totalBoxesProcessed ≤ 1 :=
  ⟨stall_at_8.1, stall_at_8.2.1, stall_at_8.2.2, stall_processed_le⟩

/-- **C2** counterexample.  The termination claim as stated — every
configuration with positive boxes, at least one station and at least one
traveler reaches `totalBoxesProcessed = B` with an empty registry in
finitely many ticks — is false: the stall configuration never processes its
second box. -/
theorem termination_violated : ¬ terminationClaim := by
  intro hc
  obtain ⟨n, h1, h2⟩ := hc dist0 2 [("S1", 300, 300)] [1, 2] 100
    (by norm_num) (by simp) (by simp)
  have hle : (stallRun n).totalBoxesProcessed ≤ 1 := stall_processed_le n
  have h1' : (stallRun n).totalBoxesProcessed = 2 := h1
  omega

/-- **C4** counterexample.  In the reachable state reached 67 ticks into the
one-box one-station scenario (virtual time 3350), the only traveler is in
`TRAVELING_TO_A` — recorded at the station (300, 300) since 3300, halfway
home — but still carries `targetStation = "S1"`, so the renderer's
`startsWith('TRAVELING_TO_')` branch fires first and interpolates from C
toward the station, reporting (200, 250); the spec's formula (start at the
recorded segment start, destination read off the location) gives
(177.5, 202.5). -/
theorem interpolation_violated :
    Reachable dist0 interpReadState ∧
    ((getTravelerStates dist0 interpReadState).map (fun t => (t.x, t.y))
        = [((200 : ℚ), (250 : ℚ))] ∧
      interpReadState.travelers.map
          (fun t => specInterpolatedPosition dist0 interpReadState t)
        = [⟨355 / 2, 405 / 2⟩] ∧
      ((200 : ℚ), (250 : ℚ)) ≠ ((355 : ℚ) / 2, (405 : ℚ) / 2)) := by
  constructor
  · exact reachable_stepIter
      (Reachable.startR (Reachable.addTrav 1
        (Reachable.addStation "S1" 300 300 (Reachable.setMax 1 Reachable.init)))) 67
  · decide

end ConcreteEvaluation

end Eventron
